import Mathlib

/-!
# Verification of the OpenClaw LLM security proxy

A shallow embedding, in Lean 4, of the `security/llm-proxy` sources
(`cost_table.py`, `budget.py`, `router_config.py`, `classifier.py`,
`proxy.py`) together with proofs and refutations of the frozen claims
about them.

Modelling conventions, used consistently below:

* Python `str` values are Lean `String`; Python `bytes` are `List Nat`
  (one `Nat` per byte).
* Python numbers (`int` and `float`) are modelled as `ℚ`: the claims
  under study are about which values flow where, not about binary
  floating-point rounding.
* `datetime` instants are `ℚ` seconds on an absolute time line;
  `timedelta(days = d)` is `d * 86400` seconds, and `.total_seconds()`
  is the plain difference.  Functions that call `datetime.now` receive
  the current instant `now : ℚ` as an explicit argument.
* Parsed JSON documents (Python's duck-typed dicts) are the inductive
  `JVal` below; Python attribute/``TypeError`` failures that can escape
  a function are modelled with `Except PyErr`.
-/

namespace LLMProxy

/-- Errors a modelled Python fragment can raise.  The proxy never inspects
the exception value (its handlers are bare `except Exception`), so a
single payload-free distinction per class of error suffices. -/
inductive PyErr where
  | attributeError
  | typeError
  deriving Repr, DecidableEq

/-- Parsed JSON values, the model of the duck-typed dicts produced by
Python's `json.loads`.  Numbers are modelled as `ℤ`, exactly covering
Python's arbitrary-precision ints — the only numeric shape the proxy's
consumers (token counts, tool counts) read.  A fractional JSON numeral
is treated as unparseable (see `parseNum`). -/
inductive JVal where
  | jnull
  | jbool (b : Bool)
  | jnum (n : ℤ)
  | jstr (s : String)
  | jarr (elems : List JVal)
  | jobj (fields : List (String × JVal))
  deriving Repr

namespace JVal

/-- Key lookup in a JSON object, first binding wins (Python dicts hold
each key once; re-serialised objects in this development keep that shape). -/
def lookup (fields : List (String × JVal)) (k : String) : Option JVal :=
  match fields with
  | [] => none
  | (k', v) :: rest => if k' = k then some v else lookup rest k

/-- Python `d.get(k)` / `d.get(k, default)` on a value known to be a dict. -/
def objGet (v : JVal) (k : String) : Option JVal :=
  match v with
  | .jobj fields => lookup fields k
  | _ => none

/-- Python `x.get(k)` on an arbitrary value: raises `AttributeError`
unless `x` is a dict. -/
def pyGet (v : JVal) (k : String) : Except PyErr (Option JVal) :=
  match v with
  | .jobj fields => .ok (lookup fields k)
  | _ => .error .attributeError

/-- Python `isinstance(v, dict)`. -/
def isDict : JVal → Bool
  | .jobj _ => true
  | _ => false

/-- Python `isinstance(v, list)`. -/
def isList : JVal → Bool
  | .jarr _ => true
  | _ => false

/-- Python `isinstance(v, str)`. -/
def isStr : JVal → Bool
  | .jstr _ => true
  | _ => false

/-- Python truthiness of a JSON value (`bool(v)`). -/
def pyTruthy : JVal → Bool
  | .jnull => false
  | .jbool b => b
  | .jnum n => n ≠ 0
  | .jstr s => s ≠ ""
  | .jarr [] => false
  | .jarr (_ :: _) => true
  | .jobj [] => false
  | .jobj (_ :: _) => true

/-- Python `k in d` for a dict. -/
def hasKey (v : JVal) (k : String) : Bool :=
  (v.objGet k).isSome

/-- Python `len(v)`: defined for strings, lists and dicts, a `TypeError`
otherwise. -/
def pyLen (v : JVal) : Except PyErr Nat :=
  match v with
  | .jstr s => .ok s.length
  | .jarr elems => .ok elems.length
  | .jobj fields => .ok fields.length
  | _ => .error .typeError

/-- Adding a JSON value to a running numeric total, Python `acc + v`:
numbers add, booleans coerce to 0/1, everything else raises `TypeError`. -/
def pyAddNum (acc : ℤ) (v : JVal) : Except PyErr ℤ :=
  match v with
  | .jnum n => .ok (acc + n)
  | .jbool b => .ok (acc + if b then 1 else 0)
  | _ => .error .typeError

/-- Replace the binding of key `k` (first occurrence) by `v`, appending
it if absent — the effect of Python's `d[k] = v`. -/
def setKey (fields : List (String × JVal)) (k : String) (v : JVal) :
    List (String × JVal) :=
  match fields with
  | [] => [(k, v)]
  | (k', v') :: rest =>
      if k' = k then (k, v) :: rest else (k', v') :: setKey rest k v

end JVal

/-! ## `cost_table.py` — model pricing -/
/-- `MODEL_COSTS` from `cost_table.py`, an insertion-ordered mapping
`model → (input $/M, output $/M)`; Python dict iteration order is the
listing order below. -/
def MODEL_COSTS : List (String × ℚ × ℚ) :=
  [ ("claude-opus-4-6", (15.00, 75.00))
  , ("claude-opus-4-20250514", (15.00, 75.00))
  , ("claude-sonnet-4-5-20250929", (3.00, 15.00))
  , ("claude-sonnet-4-20250514", (3.00, 15.00))
  , ("claude-sonnet-3-5-20241022", (3.00, 15.00))
  , ("claude-3-5-haiku-20241022", (0.80, 4.00))
  , ("claude-3-haiku-20240307", (0.25, 1.25))
  , ("gpt-4o", (2.50, 10.00))
  , ("gpt-4o-mini", (0.15, 0.60))
  , ("gpt-4-turbo", (10.00, 30.00))
  , ("gpt-4", (30.00, 60.00))
  , ("gpt-3.5-turbo", (0.50, 1.50))
  , ("o1", (15.00, 60.00))
  , ("o1-mini", (3.00, 12.00))
  , ("o3-mini", (1.10, 4.40))
  , ("gemini-2.0-flash", (0.10, 0.40))
  , ("gemini-1.5-flash", (0.075, 0.30))
  , ("gemini-1.5-pro", (1.25, 5.00))
  , ("gemini-2.0-pro", (1.25, 5.00)) ]

def DEFAULT_INPUT_COST_PER_1M : ℚ := 3.00

def DEFAULT_OUTPUT_COST_PER_1M : ℚ := 15.00

/-- `MODEL_COSTS.get(model)`: exact-key lookup. -/
def modelCostsGet (model : String) : Option (ℚ × ℚ) :=
  match MODEL_COSTS.find? (fun e => e.1 = model) with
  | some e => some e.2
  | none => none

/-- The prefix-matching fallback loop of `get_cost`: the first entry in
iteration order such that `model.startswith(known_model) or
known_model.startswith(model)`. -/
def prefixMatchCosts (model : String) : Option (ℚ × ℚ) :=
  match MODEL_COSTS.find?
      (fun e => e.1.isPrefixOf model || model.isPrefixOf e.1) with
  | some e => some e.2
  | none => none

/-- `get_cost` from `cost_table.py`. -/
def get_cost (model : String) (input_tokens output_tokens : ℚ) : ℚ :=
  let costs :=
    match modelCostsGet model with
    | some c => some c
    | none => prefixMatchCosts model
  let prices :=
    match costs with
    | none => (DEFAULT_INPUT_COST_PER_1M, DEFAULT_OUTPUT_COST_PER_1M)
    | some c => c
  (input_tokens * prices.1 + output_tokens * prices.2) / 1000000

/-- The price-selection rule exactly as the specification words it
(claim C2): the `MODEL_COSTS` entry on exact key match; otherwise the
first entry in iteration order whose key is a prefix of the model or of
which the model is a prefix; otherwise the defaults `(3.00, 15.00)`.
This definition is written from the spec, to be compared with the
source-derived `get_cost`. -/
def specSelectedPrices (model : String) : ℚ × ℚ :=
  match modelCostsGet model with
  | some c => c
  | none =>
      match prefixMatchCosts model with
      | some c => c
      | none => (3.00, 15.00)

/-! ## `budget.py` — rolling-window cost tracking -/
/-- `BudgetWindow` from `router_config.py`. -/
structure BudgetWindow where
  limit_usd : ℚ
  warn_at_pct : ℤ := 80
  downgrade_at_pct : ℤ := 90
  deriving Repr, DecidableEq

/-- `BudgetConfig` from `router_config.py` (the config variant shipped in
this repository).  `downgrade_steps` is a Python `int`; it is modelled as
`ℕ` because every claim, the dataclass default, and the loader default
concern non-negative step counts. -/
structure BudgetConfig where
  hourly : Option BudgetWindow := none
  daily : Option BudgetWindow := none
  monthly : Option BudgetWindow := none
  downgrade_steps : ℕ := 1
  over_budget_action : String := "allow"
  deriving Repr, DecidableEq

/-- The attribute names the `BudgetConfig` dataclass declares
(`router_config.py`, lines 75–81), in declaration order. -/
def BudgetConfigFields : List String :=
  ["hourly", "daily", "monthly", "downgrade_steps", "over_budget_action"]

/-- Python `getattr(budget_config, "max_push_tier")`, the read performed
by `proxy.py` line 724: the dataclass declares no such field (see
`BudgetConfigFields`), so the access raises `AttributeError` for every
`BudgetConfig` value of this repository's config variant. -/
def BudgetConfig.readMaxPushTier (_c : BudgetConfig) : Except PyErr JVal :=
  .error .attributeError

/-- Python `getattr(budget_config, "max_push_within_minutes")`, the read
performed by `_init_smart_router` (`proxy.py` line 168): likewise not a
declared field, hence an `AttributeError`. -/
def BudgetConfig.readMaxPushWithinMinutes (_c : BudgetConfig) :
    Except PyErr JVal :=
  .error .attributeError

/-- `CostEntry` from `budget.py`. -/
structure CostEntry where
  timestamp : ℚ
  model : String
  input_tokens : ℤ
  output_tokens : ℤ
  cost_usd : ℚ
  deriving Repr, DecidableEq

/-- `BudgetManager` state: its config and the FIFO deque of entries
(front of the list = front of the deque). -/
structure BudgetManager where
  config : BudgetConfig
  entries : List CostEntry := []
  deriving Repr, DecidableEq

/-- Seconds in `timedelta(days = 31)`, the hard pruning cap. -/
def thirtyOneDays : ℚ := 31 * 86400

/-- `BudgetManager._prune`: drop entries from the front of the deque
while they are older than `now - 31 days`. -/
def pruneEntries (now : ℚ) (entries : List CostEntry) : List CostEntry :=
  entries.dropWhile (fun e => decide (e.timestamp < now - thirtyOneDays))

/-- `BudgetManager.record_cost`: compute the cost, append an entry
timestamped `now`, prune, and return the cost together with the new
state. -/
def BudgetManager.record_cost (bm : BudgetManager) (now : ℚ) (model : String)
    (input_tokens output_tokens : ℤ) : ℚ × BudgetManager :=
  let cost := get_cost model (input_tokens : ℚ) (output_tokens : ℚ)
  let entry : CostEntry :=
    { timestamp := now, model := model, input_tokens := input_tokens
    , output_tokens := output_tokens, cost_usd := cost }
  (cost, { bm with entries := pruneEntries now (bm.entries ++ [entry]) })

/-- `BudgetManager._window_spend`: sum of `cost_usd` over entries with
`timestamp ≥ now - window`. -/
def BudgetManager.window_spend (bm : BudgetManager) (now window : ℚ) : ℚ :=
  ((bm.entries.filter (fun e => decide (now - window ≤ e.timestamp))).map
    (fun e => e.cost_usd)).sum

def BudgetManager.hourly_spend (bm : BudgetManager) (now : ℚ) : ℚ :=
  bm.window_spend now 3600

def BudgetManager.daily_spend (bm : BudgetManager) (now : ℚ) : ℚ :=
  bm.window_spend now 86400

def BudgetManager.monthly_spend (bm : BudgetManager) (now : ℚ) : ℚ :=
  bm.window_spend now (30 * 86400)

/-- The `checks` list built identically at the top of `should_downgrade`,
`is_warning` and `is_over_budget`: each configured window paired with its
rolling spend. -/
def BudgetManager.checks (bm : BudgetManager) (now : ℚ) :
    List (Option BudgetWindow × ℚ) :=
  [ (bm.config.hourly, bm.hourly_spend now)
  , (bm.config.daily, bm.daily_spend now)
  , (bm.config.monthly, bm.monthly_spend now) ]

/-- `BudgetManager.should_downgrade`. -/
def BudgetManager.should_downgrade (bm : BudgetManager) (now : ℚ) : Bool :=
  (bm.checks now).any fun wc =>
    match wc.1 with
    | none => false
    | some w => decide (w.limit_usd * (w.downgrade_at_pct : ℚ) / 100 ≤ wc.2)

/-- `BudgetManager.is_warning`. -/
def BudgetManager.is_warning (bm : BudgetManager) (now : ℚ) : Bool :=
  (bm.checks now).any fun wc =>
    match wc.1 with
    | none => false
    | some w => decide (w.limit_usd * (w.warn_at_pct : ℚ) / 100 ≤ wc.2)

/-- `BudgetManager.is_over_budget`. -/
def BudgetManager.is_over_budget (bm : BudgetManager) (now : ℚ) : Bool :=
  (bm.checks now).any fun wc =>
    match wc.1 with
    | none => false
    | some w => decide (w.limit_usd ≤ wc.2)

/-- `QuotaSnapshot` from `budget.py`. -/
structure QuotaSnapshot where
  tokens_limit : ℤ
  tokens_remaining : ℤ
  tokens_reset : ℚ
  requests_limit : ℤ
  requests_remaining : ℤ
  requests_reset : ℚ
  updated_at : ℚ
  deriving Repr, DecidableEq

/-- `QuotaTracker` state: the last snapshot (`_latest`) and the
configured push window in minutes. -/
structure QuotaTracker where
  latest : Option QuotaSnapshot := none
  push_within_minutes : ℤ := 15
  deriving Repr, DecidableEq

/-- `QuotaTracker.should_max_push`: true when the token-quota reset is
within the push window and tokens remain. -/
def QuotaTracker.should_max_push (qt : QuotaTracker) (now : ℚ) : Bool :=
  match qt.latest with
  | none => false
  | some snap =>
      let time_until_reset := snap.tokens_reset - now
      let minutes_left := time_until_reset / 60
      decide (0 < minutes_left ∧ minutes_left ≤ (qt.push_within_minutes : ℚ))
        && decide (0 < snap.tokens_remaining)

/-! ## `router_config.py` — providers, tiers, resolution -/
/-- `ProviderConfig` from `router_config.py`. -/
structure ProviderConfig where
  name : String
  type : String
  base_url : String
  api_key : String
  deriving Repr, DecidableEq

/-- `TierModel` from `router_config.py`; `extra_params` is an optional
JSON-object payload. -/
structure TierModel where
  provider : String
  model : String
  extra_params : Option (List (String × JVal)) := none
  deriving Repr

/-- `ClassifierConfig` from `router_config.py`. -/
structure ClassifierConfig where
  router : String := "mf"
  thresholds : List ℚ := [0.7, 0.3]
  heuristic_bypass : Bool := true
  deriving Repr, DecidableEq

/-- `RouterConfig` from `router_config.py`.  The keyed `providers` and
`tiers` dicts are insertion-ordered association lists, matching Python
dict semantics. -/
structure RouterConfig where
  enabled : Bool := true
  providers : List (String × ProviderConfig) := []
  classifier : ClassifierConfig := {}
  tiers : List (String × List TierModel) := []
  tier_order : List String := []
  budgets : BudgetConfig := {}
  default_tier : String := "tier1"
  deriving Repr

/-- Dict lookup used for `config.providers.get(name)` and
`config.tiers.get(tier, [])`. -/
def dictGet {α : Type} (d : List (String × α)) (k : String) : Option α :=
  match d.find? (fun e => e.1 = k) with
  | some e => some e.2
  | none => none

/-- `resolve_target` from `router_config.py`: the first `TierModel` of
the tier whose provider is not excluded and has a non-empty API key. -/
def resolve_target (config : RouterConfig) (tier : String)
    (exclude_providers : List String) :
    Option (ProviderConfig × String × Option (List (String × JVal))) :=
  let models := (dictGet config.tiers tier).getD []
  models.findSome? fun tm =>
    if exclude_providers.contains tm.provider then none
    else
      match dictGet config.providers tm.provider with
      | some provider =>
          if provider.api_key ≠ "" then some (provider, tm.model, tm.extra_params)
          else none
      | none => none

/-- `downgrade_tier` from `router_config.py`.  `steps` is a Python
`int`, modelled as `ℕ`: every claim and every call site in the pipeline
concerns non-negative step counts. -/
def downgrade_tier (config : RouterConfig) (tier : String) (steps : ℕ) :
    String :=
  let order := config.tier_order
  if order.isEmpty then tier
  else if order.contains tier then
    let idx := order.indexOf tier
    let new_idx := min (idx + steps) (order.length - 1)
    order.getD new_idx tier
  else tier

/-- `lowest_tier` from `router_config.py`. -/
def lowest_tier (config : RouterConfig) : String :=
  match config.tier_order.getLast? with
  | some t => t
  | none => config.default_tier

/-! ## `proxy.py` — hidden-Unicode guard and message extraction -/
/-- `HIDDEN_UNICODE_RANGES` from `proxy.py` (inclusive code-point
ranges). -/
def HIDDEN_UNICODE_RANGES : List (Nat × Nat) :=
  [ (0x200B, 0x200F), (0x202A, 0x202E), (0x2060, 0x2064)
  , (0x2066, 0x2069), (0x00AD, 0x00AD), (0x061C, 0x061C)
  , (0xFEFF, 0xFEFF), (0xE0001, 0xE007F) ]

/-- The per-character range test shared by `detect_hidden_unicode` and
`strip_hidden_unicode`. -/
def isHiddenCp (cp : Nat) : Bool :=
  HIDDEN_UNICODE_RANGES.any fun r => decide (r.1 ≤ cp ∧ cp ≤ r.2)

/-- `detect_hidden_unicode` from `proxy.py`, as the list of
`(position, codepoint)` findings.  The source also formats the code
point as `U+%04X` and attaches `unicodedata.name`; both are
presentation-only and unused by any control flow. -/
def detect_hidden_unicode (text : String) : List (Nat × Nat) :=
  text.data.enum.filterMap fun ic =>
    if isHiddenCp ic.2.toNat then some (ic.1, ic.2.toNat) else none

/-- `strip_hidden_unicode` from `proxy.py`: keep exactly the characters
outside the hidden ranges. -/
def strip_hidden_unicode (text : String) : String :=
  String.mk (text.data.filter fun ch => !isHiddenCp ch.toNat)

/-- `detect_hidden_unicode` applied to a duck-typed value from a parsed
body: the character loop `for i, ch in enumerate(text)` requires a
string and raises otherwise. -/
def detectJ (v : JVal) : Except PyErr (List (Nat × Nat)) :=
  match v with
  | .jstr s => .ok (detect_hidden_unicode s)
  | _ => .error .typeError

/-- Python `for x in v` — the iterable views the pipeline can meet:
lists iterate their elements, strings their one-character substrings,
dicts their keys; other values raise `TypeError`. -/
def pyIter (v : JVal) : Except PyErr (List JVal) :=
  match v with
  | .jarr elems => .ok elems
  | .jstr s => .ok (s.data.map fun c => .jstr (String.mk [c]))
  | .jobj fields => .ok (fields.map fun f => .jstr f.1)
  | _ => .error .typeError

/-- Python `v == "lit"` for a duck-typed value. -/
def JVal.eqStr (v : JVal) (lit : String) : Bool :=
  match v with
  | .jstr s => s = lit
  | _ => false

/-- The test `block.get("type") == "text"` on a dict block's fields. -/
def isTextBlock (fields : List (String × JVal)) : Bool :=
  match JVal.lookup fields "type" with
  | some (.jstr s) => s = "text"
  | _ => false

/-- The text of a content/system block, per the pattern
`isinstance(block, dict) and block.get("type") == "text"`, yielding
`block.get("text", "")`. -/
def blockText (block : JVal) : Option JVal :=
  match block with
  | .jobj fields =>
      if isTextBlock fields then some ((JVal.lookup fields "text").getD (.jstr ""))
      else none
  | _ => none

/-- `extract_messages` from `proxy.py`: the guard-scanned text values
(system text plus user-message contents; system-role contents too when
the legacy provider is `"openai"`).  Collected values keep their
duck-typed form — a malformed block can contribute a non-string, which
the source only trips over later, inside `detect`/`strip`. -/
def extract_messages (llm_api_provider : String) (body : JVal) :
    Except PyErr (List JVal) := do
  let system ← body.pyGet "system"
  let sysTexts : List JVal :=
    match system with
    | some (.jstr s) => [.jstr s]
    | some (.jarr blocks) => blocks.filterMap blockText
    | _ => []
  let messagesV := (← body.pyGet "messages").getD (.jarr [])
  let msgs ← pyIter messagesV
  List.foldlM (fun texts msg => do
    let role := (← msg.pyGet "role").getD (.jstr "")
    if role.eqStr "user" || (llm_api_provider = "openai" && role.eqStr "system")
    then
      let content := (msg.objGet "content").getD (.jstr "")
      match content with
      | .jstr s => pure (texts ++ [.jstr s])
      | .jarr blocks => pure (texts ++ blocks.filterMap blockText)
      | _ => pure texts
    else
      pure texts) sysTexts msgs

/-- A guard block decision (the dict `{blocked, reason, count}`); the
reason string formats the first ten code points. -/
structure BlockInfo where
  codepoints : List Nat
  count : Nat
  deriving Repr, DecidableEq

/-- The `all_findings` accumulation loop of `check_hidden_unicode`. -/
def collectFindings (acc : List (Nat × Nat)) :
    List JVal → Except PyErr (List (Nat × Nat))
  | [] => .ok acc
  | m :: ms => do collectFindings (acc ++ (← detectJ m)) ms

/-- `check_hidden_unicode` from `proxy.py`: `None` when the guard is
off, nothing was found, or strip mode is active; a block otherwise. -/
def check_hidden_unicode (guard_enabled strip_mode : Bool)
    (messages : List JVal) : Except PyErr (Option BlockInfo) := do
  if !guard_enabled then return none
  let all_findings ← collectFindings [] messages
  if all_findings.isEmpty then return none
  if strip_mode then return none
  return some
    { codepoints := (all_findings.take 10).map (fun f => f.2)
    , count := all_findings.length }

/-- The generator loop of
`had_hidden = any(detect_hidden_unicode(msg) for msg in messages)`. -/
def anyHiddenAux (acc : Bool) : List JVal → Except PyErr Bool
  | [] => .ok acc
  | m :: ms => do anyHiddenAux (acc || !(← detectJ m).isEmpty) ms

/-- The `had_hidden` test at `proxy.py` line 687. -/
def anyHidden (messages : List JVal) : Except PyErr Bool :=
  anyHiddenAux false messages

/-- Strip a single block in place: `block["text"] =
strip_hidden_unicode(block.get("text", ""))` for text-typed dict blocks,
everything else untouched.  A text-typed block whose `text` value is not
a string makes `strip_hidden_unicode` raise. -/
def stripBlock (block : JVal) : Except PyErr JVal :=
  match block with
  | .jobj fields =>
      if isTextBlock fields then
        match (JVal.lookup fields "text").getD (.jstr "") with
        | .jstr s =>
            .ok (.jobj (JVal.setKey fields "text" (.jstr (strip_hidden_unicode s))))
        | _ => .error .typeError
      else .ok block
  | _ => .ok block

/-- Strip one element of the `messages` list in place:
`msg["content"] = strip(...)` for string contents, per-block stripping
for list contents, other content shapes untouched. -/
def stripMsg (msg : JVal) : Except PyErr JVal := do
  let content := (← msg.pyGet "content").getD (.jstr "")
  match content with
  | .jstr s =>
      match msg with
      | .jobj mf =>
          pure (JVal.jobj
            (JVal.setKey mf "content" (.jstr (strip_hidden_unicode s))))
      | _ => .error .attributeError
  | .jarr blocks => do
      let blocks' ← blocks.mapM stripBlock
      match msg with
      | .jobj mf => pure (JVal.jobj (JVal.setKey mf "content" (.jarr blocks')))
      | _ => .error .attributeError
  | _ => pure msg

/-- The `for msg in body.get("messages", [])` rewrite loop of
`strip_hidden_unicode_from_body`, over the body fields with the system
field already rewritten. -/
def stripBodyMessages (fields1 : List (String × JVal)) : Except PyErr JVal := do
  let messagesV := (JVal.lookup fields1 "messages").getD (.jarr [])
  match messagesV with
  | .jarr msgs => do
      let msgs' ← msgs.mapM stripMsg
      if (JVal.lookup fields1 "messages").isSome then
        pure (.jobj (JVal.setKey fields1 "messages" (.jarr msgs')))
      else
        pure (.jobj fields1)
  | other => do
      let msgs ← pyIter other
      let _ ← msgs.mapM fun msg => do
        let _ ← msg.pyGet "content"
        pure ()
      pure (.jobj fields1)

/-- `strip_hidden_unicode_from_body` from `proxy.py`, functionally: the
in-place rewrite of the system field, message string contents, and
text-typed content blocks. -/
def strip_hidden_unicode_from_body (body : JVal) : Except PyErr JVal := do
  let system ← body.pyGet "system"
  let fields0 ←
    match body with
    | .jobj fields => pure fields
    | _ => .error .attributeError
  let fields1 ←
    match system with
    | some (.jstr s) =>
        pure (JVal.setKey fields0 "system" (.jstr (strip_hidden_unicode s)))
    | some (.jarr blocks) => do
        let blocks' ← blocks.mapM stripBlock
        pure (JVal.setKey fields0 "system" (.jarr blocks'))
    | _ => pure fields0
  stripBodyMessages fields1

/-- `check_guard` from `proxy.py`: `None` unless the guard is enabled
and a guard URL is configured; otherwise the external service (here the
oracle `ext`, standing for the HTTP call) decides. -/
def check_guard (guard_enabled : Bool) (guard_url : String)
    (ext : List JVal → Option BlockInfo) (messages : List JVal) :
    Option BlockInfo :=
  if !guard_enabled || guard_url = "" then none else ext messages

/-- Outcome of the guard stage of the `proxy` handler (`proxy.py` lines
672–701): a 400 block response, or continuation into routing/forwarding
with the (possibly rewritten) body. -/
inductive GuardOutcome where
  | blocked
  | proceed (body : JVal)
  deriving Repr

/-- The guard stage of the `proxy` handler: extract messages, run the
built-in hidden-Unicode check, strip when configured, then the external
guard.  An `Except` error models a Python exception escaping the handler
(FastAPI then answers 500 and nothing is forwarded). -/
def guard_stage (guard_enabled strip_mode : Bool) (guard_url : String)
    (llm_api_provider : String) (ext : List JVal → Option BlockInfo)
    (body : JVal) : Except PyErr GuardOutcome := do
  let messages ← extract_messages llm_api_provider body
  if messages.isEmpty then return .proceed body
  let unicode_block ← check_hidden_unicode guard_enabled strip_mode messages
  match unicode_block with
  | some _ => return .blocked
  | none => do
      let body' ←
        if guard_enabled && strip_mode then do
          let had_hidden ← anyHidden messages
          if had_hidden then strip_hidden_unicode_from_body body
          else pure body
        else pure body
      match check_guard guard_enabled guard_url ext messages with
      | some _ => return .blocked
      | none => return .proceed body'

/-! ## `classifier.py` — request complexity classification -/
/-- The classifier module's globals (`_controller`, `_config`,
`_tier_order`).  The RouteLLM controller is abstracted to its scalar
contract: a win-rate score per prompt (`none` when initialization
failed and `_controller is None`). -/
structure ClassifierState where
  controller : Option (String → ℚ) := none
  config : Option ClassifierConfig := none
  tier_order : List String := []

/-- `" ".join(texts)` over duck-typed block texts: every element must be
a string, otherwise `TypeError`. -/
def joinTexts (texts : List JVal) : Except PyErr String := do
  let strs ← texts.mapM fun t =>
    match t with
    | .jstr s => (.ok s : Except PyErr String)
    | _ => .error .typeError
  pure (String.intercalate " " strs)

/-- The inner loop of `_extract_prompt_text`, over the reversed message
list. -/
def extractPromptLoop : List JVal → Except PyErr String
  | [] => .ok ""
  | msg :: rest => do
      let role := (← msg.pyGet "role").getD .jnull
      if !role.eqStr "user" then extractPromptLoop rest
      else
        let content := (msg.objGet "content").getD (.jstr "")
        match content with
        | .jstr s => .ok s
        | .jarr blocks => joinTexts (blocks.filterMap blockText)
        | _ => extractPromptLoop rest

/-- `_extract_prompt_text` from `classifier.py`: last user message text,
list contents joined with a space. -/
def extract_prompt_text (body : JVal) : Except PyErr String := do
  let messagesV := (← body.pyGet "messages").getD (.jarr [])
  let msgs ← pyIter messagesV
  extractPromptLoop msgs.reverse

/-- `len(b.get("text", ""))` summed over text-typed dict blocks — the
last-user-message length for the heuristic. -/
def sumTextLens (blocks : List JVal) : Except PyErr Nat :=
  List.foldlM (fun acc block =>
    match blockText block with
    | some t => do
        let n ← t.pyLen
        pure (acc + n)
    | none => pure acc) 0 blocks

/-- The last-user-message length scan of `_heuristic_classify`. -/
def lastUserLen : List JVal → Except PyErr Nat
  | [] => .ok 0
  | msg :: rest => do
      let role := (← msg.pyGet "role").getD .jnull
      if role.eqStr "user" then
        let content := (msg.objGet "content").getD (.jstr "")
        match content with
        | .jstr s => .ok s.length
        | .jarr blocks => sumTextLens blocks
        | _ => .ok 0
      else lastUserLen rest

/-- `_heuristic_classify` from `classifier.py`: a confident tier, or
`none` to fall through to RouteLLM.  Exceptions (e.g. `len` of a
non-sized `tools` value) propagate: the call site in `classify_request`
is not wrapped in a `try`. -/
def heuristic_classify (tier_order : List String) (body : JVal) :
    Except PyErr (Option String) := do
  match tier_order.head?, tier_order.getLast? with
  | some highest_tier, some lowest_tier => do
      let messagesV := (← body.pyGet "messages").getD (.jarr [])
      let toolsV := (← body.pyGet "tools").getD (.jarr [])
      let msg_count ← messagesV.pyLen
      let tool_count ← toolsV.pyLen
      let msgs ← pyIter messagesV
      let last_user_len ← lastUserLen msgs.reverse
      if msg_count ≤ 3 && tool_count = 0 && last_user_len < 200 then
        return some lowest_tier
      if msg_count > 20 || tool_count > 5 then
        return some highest_tier
      let thinking := ((body.objGet "thinking").map JVal.pyTruthy).getD false
      let ext_thinking :=
        ((body.objGet "extended_thinking").map JVal.pyTruthy).getD false
      if thinking || ext_thinking then
        return some highest_tier
      return none
  | _, _ => .ok none

/-- The threshold walk of `classify_request`: first `i` with
`score > thresholds[i]` yields `tier_order[i]` (an out-of-range `i`
raises, to be caught by the surrounding `try`); no hit yields the last
tier. -/
def walkThresholds (thresholds : List ℚ) (order : List String) (score : ℚ) :
    Except PyErr String :=
  go thresholds 0
where
  go : List ℚ → Nat → Except PyErr String
    | [], _ => .ok ((order.getLast?).getD "")
    | t :: rest, i =>
        if score > t then
          match order.get? i with
          | some x => .ok x
          | none => .error .typeError
        else go rest (i + 1)

/-- `classify_request` from `classifier.py`.  The heuristic pre-filter
runs outside any `try` (its exceptions escape to the caller); the
RouteLLM section fails open to the default tier. -/
def classify_request (st : ClassifierState) (body : JVal)
    (default_tier : String) : Except PyErr String := do
  match st.config with
  | none => return default_tier
  | some cfg => do
      if st.tier_order.isEmpty then return default_tier
      if cfg.heuristic_bypass then
        match ← heuristic_classify st.tier_order body with
        | some t => return t
        | none => pure ()
      match st.controller with
      | none => return default_tier
      | some winRate =>
          let attempt : Except PyErr String := do
            let prompt ← extract_prompt_text body
            if prompt = "" then return default_tier
            let score := winRate prompt
            walkThresholds cfg.thresholds st.tier_order score
          match attempt with
          | .ok t => return t
          | .error _ => return default_tier

/-! ## `proxy.py` — the smart-routing block of the request pipeline -/
/-- The proxy module's smart-router globals. -/
structure RouterState where
  router_config : RouterConfig
  budget_manager : Option BudgetManager := none
  budget_config : Option BudgetConfig := none
  quota_tracker : Option QuotaTracker := none
  smart_router_ready : Bool := false
  classifier : ClassifierState := {}

/-- `_TRACKABLE_PATHS` and the trackability test of `proxy.py`. -/
def TRACKABLE_PATHS : List String := ["/v1/messages", "/v1/chat/completions"]

/-- Python `s.endswith(suffix)`, via the character lists. -/
def strEndsWith (s suffix : String) : Bool :=
  suffix.data.isSuffixOf s.data

/-- `is_trackable`: POST to a path ending in a trackable suffix. -/
def is_trackable (method path : String) : Bool :=
  method = "POST" && TRACKABLE_PATHS.any fun p => strEndsWith ("/" ++ path) p

/-- How the smart-routing block (`proxy.py` lines 712–816) disposes of a
request.  `reject429` is returned directly to the client: no target is
resolved and no upstream HTTP request is issued.  `routed` proceeds to
forward to the resolved provider; `legacy` falls through to legacy
forwarding against `LLM_API_BASE`. -/
inductive RouteDecision where
  | reject429 (body : String)
  | routed (tier provider model : String)
  | legacy
  deriving Repr, DecidableEq

/-- The 429 body literal from `proxy.py` line 733. -/
def BUDGET_EXCEEDED_BODY : String :=
  "\x7b\"error\": \"budget_exceeded\", \"message\": \"Cost budget exceeded\"\x7d"

/-- Target resolution and the routed/legacy split (`proxy.py` steps 4–5;
`exclude_providers` is always empty in the current pipeline). -/
def resolveAndRoute (st : RouterState) (tier : String) : RouteDecision :=
  match resolve_target st.router_config tier [] with
  | none => .legacy
  | some (provider, target_model, _extra) => .routed tier provider.name target_model

/-- The body of the routing `try` block: classification, the max-push
override, the budget gate, then target resolution.  A raised `PyErr`
is handled by the caller (fail-open). -/
def routingBlock (st : RouterState) (now : ℚ) (body : JVal) :
    Except PyErr RouteDecision := do
  let tier ← classify_request st.classifier body st.router_config.default_tier
  let push :=
    match st.quota_tracker with
    | some qt => qt.should_max_push now
    | none => false
  if push then do
    -- `push_tier = _budget_config.max_push_tier or _router_config.tier_order[0]`
    -- starts by reading the `max_push_tier` attribute, which raises
    -- `AttributeError` for this repository's `BudgetConfig` (and for a
    -- still-`None` `_budget_config`); the rest of the branch is dead code.
    let _v ← match st.budget_config with
      | some bc => bc.readMaxPushTier
      | none => (.error .attributeError : Except PyErr JVal)
    pure (resolveAndRoute st tier)
  else
    match st.budget_manager with
    | some bm =>
        if bm.is_over_budget now then
          if bm.config.over_budget_action = "reject" then
            pure (.reject429 BUDGET_EXCEEDED_BODY)
          else
            pure (resolveAndRoute st (lowest_tier st.router_config))
        else if bm.should_downgrade now then
          pure (resolveAndRoute st
            (downgrade_tier st.router_config tier bm.config.downgrade_steps))
        else
          pure (resolveAndRoute st tier)
    | none => pure (resolveAndRoute st tier)

/-- The smart-routing block with its enclosing `try`: any exception is
logged and the request falls through to legacy forwarding.  The caller
(`proxy`) enters this block only when `_smart_router_ready`, the request
is trackable, and the body parsed. -/
def smart_routing (st : RouterState) (now : ℚ) (body : JVal) : RouteDecision :=
  match routingBlock st now body with
  | .ok d => d
  | .error _ => .legacy

/-- The routing stage of `proxy` as a whole: smart routing runs only
when the router is ready, the request is trackable, and the body parsed
(`proxy.py` line 712); otherwise the request goes straight to legacy
forwarding. -/
def proxy_route_stage (st : RouterState) (now : ℚ) (method path : String)
    (body : Option JVal) : RouteDecision :=
  match body with
  | some b =>
      if st.smart_router_ready && is_trackable method path then
        smart_routing st now b
      else .legacy
  | none => .legacy

/-! ## Claim C5 — budget predicate monotonicity -/
/-- The well-formedness of one configured budget window assumed by claim
C5: `warn_at_pct ≤ downgrade_at_pct ≤ 100` and `limit_usd ≥ 0`
(absent windows are unconstrained). -/
def windowWF (w : Option BudgetWindow) : Bool :=
  match w with
  | none => true
  | some wc =>
      decide (wc.warn_at_pct ≤ wc.downgrade_at_pct ∧ wc.downgrade_at_pct ≤ 100 ∧
        0 ≤ wc.limit_usd)

/-- A budget manager with one configured (well-formed) window whose
limit is already met, used to witness C5 on a concrete state. -/
def bmWitness : BudgetManager :=
  { config :=
      { hourly := some { limit_usd := 0, warn_at_pct := 80, downgrade_at_pct := 90 }
      , over_budget_action := "reject" }
  , entries := [] }

/-- A quota tracker whose snapshot resets in 5 minutes with tokens
remaining, used to witness C7 concretely. -/
def qtWitness : QuotaTracker :=
  { latest := some
      { tokens_limit := 100000, tokens_remaining := 1000, tokens_reset := 300
      , requests_limit := 50, requests_remaining := 10, requests_reset := 300
      , updated_at := 0 }
  , push_within_minutes := 15 }

/-! ## Claim C8 — `downgrade_tier` composition -/
/-- A `RouterConfig` whose `tier_order` repeats a tier name.  Such a
value is constructible (the dataclass enforces nothing), and on it
`downgrade_tier` composition fails, because `list.index` returns the
first occurrence. -/
def dupTierCfg : RouterConfig := { tier_order := ["a", "b", "a"] }

/-- A duplicate-free three-tier config used to witness the amended C8. -/
def triTierCfg : RouterConfig := { tier_order := ["tier1", "tier2", "tier3"] }

/-! ## Claim C9 — pruning on append -/
/-- The budget log ordered by timestamp — the invariant the single
producer maintains by appending entries stamped with the (monotone)
wall clock. -/
def entriesSorted (l : List CostEntry) : Prop :=
  l.Pairwise fun e f => e.timestamp ≤ f.timestamp

/-- A sequence of `record_cost` calls, each given as
`(now, model, input_tokens, output_tokens)`. -/
def runRecords (bm : BudgetManager) (calls : List (ℚ × String × ℤ × ℤ)) :
    BudgetManager :=
  calls.foldl (fun s c => (s.record_cost c.1 c.2.1 c.2.2.1 c.2.2.2).2) bm

/-- Two concrete calls five days apart, witnessing C9. -/
def callsWitness : List (ℚ × String × ℤ × ℤ) :=
  [(0, "gpt-4o", 100, 10), (432000, "o1", 50, 5)]

/-- A provider with a key, so that every tier of `maxPushCfg` resolves. -/
def mainProvider : ProviderConfig :=
  { name := "anthropic-main", type := "anthropic"
  , base_url := "https://api.anthropic.com", api_key := "sk-test-key" }

/-- A two-tier config whose top tier (`tier_order[0]`) is resolvable. -/
def maxPushCfg : RouterConfig :=
  { providers := [("anthropic-main", mainProvider)]
  , tiers :=
      [ ("tier1", [{ provider := "anthropic-main"
                   , model := "claude-opus-4-20250514" }])
      , ("tier2", [{ provider := "anthropic-main"
                   , model := "claude-3-5-haiku-20241022" }]) ]
  , tier_order := ["tier1", "tier2"]
  , budgets := {} }

/-- A quota snapshot resetting in 5 minutes with tokens left: at
`now = 0` the tracker reports `should_max_push`. -/
def maxPushSnap : QuotaSnapshot :=
  { tokens_limit := 100000, tokens_remaining := 5000, tokens_reset := 300
  , requests_limit := 50, requests_remaining := 10, requests_reset := 300
  , updated_at := 0 }

/-- Router state in the max-push situation claim C1 describes: ready,
tracker reporting an imminent reset with tokens left. -/
def maxPushState : RouterState :=
  { router_config := maxPushCfg
  , budget_manager := some { config := {}, entries := [] }
  , budget_config := some {}
  , quota_tracker := some { latest := some maxPushSnap, push_within_minutes := 15 }
  , smart_router_ready := true
  , classifier :=
      { controller := none, config := some {}
      , tier_order := ["tier1", "tier2"] } }

/-- A trackable body that classifies (heuristically) without error. -/
def maxPushBody : JVal :=
  .jobj [("model", .jstr "claude-3-5-haiku-20241022"), ("messages", .jarr [])]

/-- Budget config that is over budget from the start (zero hourly limit)
with the reject policy. -/
def rejectBudget : BudgetConfig :=
  { hourly := some { limit_usd := 0, warn_at_pct := 80, downgrade_at_pct := 90 }
  , over_budget_action := "reject" }

/-- Router state for the C4 counterexample: ready, over budget with
`over_budget_action = "reject"`, no quota snapshot (so no max-push). -/
def rejectState : RouterState :=
  { router_config := { tier_order := ["tier1", "tier2"] }
  , budget_manager := some { config := rejectBudget, entries := [] }
  , budget_config := some rejectBudget
  , quota_tracker := none
  , smart_router_ready := true
  , classifier :=
      { controller := none, config := some {}
      , tier_order := ["tier1", "tier2"] } }

/-- A parseable, trackable body whose `tools` field is a number: the
heuristic classifier's `len(tools)` raises before the budget gate. -/
def badToolsBody : JVal := .jobj [("tools", .jnum 42)]

/-- State witnessing the amended C4: over budget, reject policy, no
snapshot, classifier uninitialized (classification trivially succeeds
with the default tier). -/
def rejectWitnessState : RouterState :=
  { router_config := { tier_order := ["tier1", "tier2"] }
  , budget_manager := some { config := rejectBudget, entries := [] }
  , budget_config := some rejectBudget
  , quota_tracker := none
  , smart_router_ready := true
  , classifier := {} }

/-! ## Claim C6 — hidden-Unicode strip mode -/
/-- The string text carried by a text-typed block (its text position),
if any. -/
def blockTextString (b : JVal) : Option String :=
  match b with
  | .jobj fields =>
      if isTextBlock fields then
        match JVal.lookup fields "text" with
        | some (.jstr s) => some s
        | _ => none
      else none
  | _ => none

/-- The string texts of text-typed blocks that actually carry a string
`text` value — the block text positions the claim speaks about. -/
def blockTextStrings (blocks : List JVal) : List String :=
  blocks.filterMap blockTextString

/-- The text positions contributed by one message: its string content,
or the texts of its text-typed content blocks — regardless of role. -/
def msgTextStrings (msg : JVal) : List String :=
  match msg.objGet "content" with
  | some (.jstr s) => [s]
  | some (.jarr blocks) => blockTextStrings blocks
  | _ => []

/-- Every text position of a request body, in the claim's sense: the
system field (string form or text blocks) and, for all messages
regardless of role, string contents and text-typed content blocks. -/
def allTextPositions (body : JVal) : List String :=
  (match body.objGet "system" with
    | some (.jstr s) => [s]
    | some (.jarr blocks) => blockTextStrings blocks
    | _ => []) ++
  (match body.objGet "messages" with
    | some (.jarr msgs) => msgs.flatMap msgTextStrings
    | _ => [])

/-- A body whose only hidden-Unicode code point sits in an assistant
message — a text position the guard never scans. -/
def hiddenAssistantBody : JVal :=
  .jobj [("messages", .jarr [.jobj
    [("role", .jstr "assistant"), ("content", .jstr "hi​world")]])]

/-- A user-message body carrying U+200B, and its stripped form — the
spec's own end-to-end scenario (`"hi​world"` → `"hiworld"`). -/
def userHiddenBody : JVal :=
  .jobj [("messages", .jarr [.jobj
    [("role", .jstr "user"), ("content", .jstr "hi​world")]])]

def userStrippedBody : JVal :=
  .jobj [("messages", .jarr [.jobj
    [("role", .jstr "user"), ("content", .jstr "hiworld")]])]

/-! ## `proxy.py` — the SSE token extractor

Byte streams are `List Nat` (one entry per byte).  `json.loads` on a
payload is modelled by `jsonLoads` below: a strict JSON reader over
UTF-8 bytes producing `JVal` (Python's parser additionally accepts
`NaN`/`Infinity` literals and lone surrogates in `\u` escapes; none of
those can reach the token-usage fields the extractor consumes). -/
/-- `bytes.split(b"\n")`: split a byte list on newline (10), keeping
empty parts; always returns at least one part. -/
def splitNl : List Nat → List (List Nat)
  | [] => [[]]
  | b :: rest =>
      if b = 10 then [] :: splitNl rest
      else
        match splitNl rest with
        | [] => [[b]]
        | l :: ls => (b :: l) :: ls

/-- JSON insignificant whitespace. -/
def jsonWs (b : Nat) : Bool :=
  b = 32 || b = 9 || b = 10 || b = 13

def skipWs : List Nat → List Nat
  | [] => []
  | b :: rest => if jsonWs b then skipWs rest else b :: rest

/-- Lex a JSON string body (after the opening quote) up to the closing
quote, keeping escape sequences intact; returns content and remainder. -/
def lexStrBytes : List Nat → Option (List Nat × List Nat)
  | [] => none
  | 34 :: rest => some ([], rest)
  | 92 :: c :: rest =>
      match lexStrBytes rest with
      | some (s, r) => some (92 :: c :: s, r)
      | none => none
  | b :: rest =>
      match lexStrBytes rest with
      | some (s, r) => some (b :: s, r)
      | none => none

def hexVal (b : Nat) : Option Nat :=
  if 48 ≤ b ∧ b ≤ 57 then some (b - 48)
  else if 65 ≤ b ∧ b ≤ 70 then some (b - 55)
  else if 97 ≤ b ∧ b ≤ 102 then some (b - 87)
  else none

def isCont (b : Nat) : Bool := 128 ≤ b && b < 192

/-- Decode lexed string-content bytes (UTF-8 plus JSON escapes) into
Unicode code points.  `fuel` bounds recursion; callers pass the content
length plus one. -/
def decodeStrBytes : Nat → List Nat → Option (List Nat)
  | 0, _ => none
  | _, [] => some []
  | fuel + 1, 92 :: c :: rest =>
      if c = 110 then (decodeStrBytes fuel rest).map (10 :: ·)
      else if c = 116 then (decodeStrBytes fuel rest).map (9 :: ·)
      else if c = 114 then (decodeStrBytes fuel rest).map (13 :: ·)
      else if c = 98 then (decodeStrBytes fuel rest).map (8 :: ·)
      else if c = 102 then (decodeStrBytes fuel rest).map (12 :: ·)
      else if c = 34 then (decodeStrBytes fuel rest).map (34 :: ·)
      else if c = 92 then (decodeStrBytes fuel rest).map (92 :: ·)
      else if c = 47 then (decodeStrBytes fuel rest).map (47 :: ·)
      else if c = 117 then
        match rest with
        | h1 :: h2 :: h3 :: h4 :: rest2 =>
            match hexVal h1, hexVal h2, hexVal h3, hexVal h4 with
            | some a, some b, some c2, some d =>
                let cp := ((a * 16 + b) * 16 + c2) * 16 + d
                if 0xD800 ≤ cp ∧ cp ≤ 0xDBFF then
                  match rest2 with
                  | 92 :: 117 :: g1 :: g2 :: g3 :: g4 :: rest3 =>
                      match hexVal g1, hexVal g2, hexVal g3, hexVal g4 with
                      | some a2, some b2, some c3, some d2 =>
                          let lo := ((a2 * 16 + b2) * 16 + c3) * 16 + d2
                          if 0xDC00 ≤ lo ∧ lo ≤ 0xDFFF then
                            (decodeStrBytes fuel rest3).map
                              ((0x10000 + (cp - 0xD800) * 0x400 + (lo - 0xDC00)) :: ·)
                          else none
                      | _, _, _, _ => none
                  | _ => none
                else if 0xDC00 ≤ cp ∧ cp ≤ 0xDFFF then none
                else (decodeStrBytes fuel rest2).map (cp :: ·)
            | _, _, _, _ => none
        | _ => none
      else none
  | _ + 1, [92] => none
  | fuel + 1, b :: rest =>
      if b < 0x80 then (decodeStrBytes fuel rest).map (b :: ·)
      else if b < 0xC0 then none
      else if b < 0xE0 then
        match rest with
        | c1 :: rest2 =>
            if isCont c1 then
              (decodeStrBytes fuel rest2).map
                (((b - 0xC0) * 0x40 + (c1 - 0x80)) :: ·)
            else none
        | [] => none
      else if b < 0xF0 then
        match rest with
        | c1 :: c2 :: rest2 =>
            if isCont c1 && isCont c2 then
              (decodeStrBytes fuel rest2).map
                ((((b - 0xE0) * 0x40 + (c1 - 0x80)) * 0x40 + (c2 - 0x80)) :: ·)
            else none
        | _ => none
      else if b < 0xF8 then
        match rest with
        | c1 :: c2 :: c3 :: rest2 =>
            if isCont c1 && isCont c2 && isCont c3 then
              (decodeStrBytes fuel rest2).map
                (((((b - 0xF0) * 0x40 + (c1 - 0x80)) * 0x40 + (c2 - 0x80)) * 0x40
                  + (c3 - 0x80)) :: ·)
            else none
        | _ => none
      else none

def cpChar (cp : Nat) : Option Char :=
  if h : cp.isValidChar then some (Char.ofNatAux cp h) else none

def cpsToString (cps : List Nat) : Option String :=
  (cps.mapM cpChar).map String.mk

/-- Decode a lexed JSON string body into a Lean string. -/
def decodeJsonString (content : List Nat) : Option String := do
  let cps ← decodeStrBytes (content.length + 1) content
  cpsToString cps

def digitsToNat (ds : List Nat) : Nat :=
  ds.foldl (fun acc b => acc * 10 + (b - 48)) 0

def isDigit (b : Nat) : Bool := 48 ≤ b && b ≤ 57

def lexDigits : List Nat → List Nat × List Nat
  | [] => ([], [])
  | b :: rest =>
      if isDigit b then
        match lexDigits rest with
        | (ds, r) => (b :: ds, r)
      else ([], b :: rest)

/-- Parse a JSON integer numeral.  Python's parser would read a
fractional or exponent numeral as a float; floats never occur in the
usage/model fields the extractor consumes, and this model treats such a
numeral as unparseable (the surrounding line is then skipped, exactly
like any other unparseable payload). -/
def parseNum (input : List Nat) : Option (ℤ × List Nat) :=
  let (neg, r0) :=
    match input with
    | 45 :: r => (true, r)
    | _ => (false, input)
  let (ints, r1) := lexDigits r0
  if ints.isEmpty then none
  else
    match r1 with
    | 46 :: _ => none
    | 101 :: _ => none
    | 69 :: _ => none
    | _ =>
        let mantissa : ℤ := digitsToNat ints
        some ((if neg then -mantissa else mantissa), r1)

mutual

/-- Recursive-descent JSON value reader; `fuel` strictly decreases on
every nested call. -/
def parseVal : Nat → List Nat → Option (JVal × List Nat)
  | 0, _ => none
  | fuel + 1, input =>
      match skipWs input with
      | 110 :: 117 :: 108 :: 108 :: rest => some (.jnull, rest)
      | 116 :: 114 :: 117 :: 101 :: rest => some (.jbool true, rest)
      | 102 :: 97 :: 108 :: 115 :: 101 :: rest => some (.jbool false, rest)
      | 34 :: rest => do
          let (content, r) ← lexStrBytes rest
          let s ← decodeJsonString content
          pure (JVal.jstr s, r)
      | 91 :: rest => do
          let (elems, r) ← parseElems fuel rest
          pure (JVal.jarr elems, r)
      | 123 :: rest => do
          let (fields, r) ← parseFields fuel rest
          pure (JVal.jobj fields, r)
      | other => do
          let (n, r) ← parseNum other
          pure (JVal.jnum n, r)

def parseElems : Nat → List Nat → Option (List JVal × List Nat)
  | 0, _ => none
  | fuel + 1, input =>
      match skipWs input with
      | 93 :: rest => some ([], rest)
      | other => parseElemsRest fuel other

def parseElemsRest : Nat → List Nat → Option (List JVal × List Nat)
  | 0, _ => none
  | fuel + 1, input => do
      let (v, r1) ← parseVal fuel input
      match skipWs r1 with
      | 44 :: r2 => do
          let (vs, r3) ← parseElemsRest fuel r2
          pure (v :: vs, r3)
      | 93 :: r2 => pure ([v], r2)
      | _ => none

def parseFields : Nat → List Nat → Option (List (String × JVal) × List Nat)
  | 0, _ => none
  | fuel + 1, input =>
      match skipWs input with
      | 125 :: rest => some ([], rest)
      | other => parseFieldsRest fuel other

def parseFieldsRest : Nat → List Nat → Option (List (String × JVal) × List Nat)
  | 0, _ => none
  | fuel + 1, input =>
      match skipWs input with
      | 34 :: rest => do
          let (content, r1) ← lexStrBytes rest
          let k ← decodeJsonString content
          match skipWs r1 with
          | 58 :: r2 => do
              let (v, r3) ← parseVal fuel r2
              match skipWs r3 with
              | 44 :: r4 => do
                  let (fs, r5) ← parseFieldsRest fuel r4
                  pure ((k, v) :: fs, r5)
              | 125 :: r4 => pure ([(k, v)], r4)
              | _ => none
          | _ => none
      | _ => none

end

/-- The model of `json.loads` on an SSE payload. -/
def jsonLoads (payload : List Nat) : Option JVal :=
  match parseVal (2 * payload.length + 2) payload with
  | some (v, rest) => if skipWs rest = [] then some v else none
  | none => none

/-- The bytes of an ASCII string, for writing concrete byte streams
readably. -/
def asciiBytes (s : String) : List Nat :=
  s.data.map Char.toNat

/-- The accumulating attributes of `SSETokenExtractor` (everything but
the line buffer, which only `feed`/`finalize` touch). -/
structure ExtAcc where
  input_tokens : ℤ := 0
  output_tokens : ℤ := 0
  cache_read_input_tokens : ℤ := 0
  cache_creation_input_tokens : ℤ := 0
  model : Option JVal := none
  deriving Repr

/-- `SSETokenExtractor` state: the line buffer plus the accumulators. -/
structure SSETokenExtractor where
  line_buffer : List Nat := []
  acc : ExtAcc := {}
  deriving Repr

/-- Python truthiness of `self.model` (`if not self.model`): `None` and
falsy JSON values (such as the empty string) count as unset. -/
def modelFalsy (m : Option JVal) : Bool :=
  match m with
  | none => true
  | some v => !v.pyTruthy

/-- `usage.get(key, 0)` added to a counter. -/
def getUsageNum (uf : List (String × JVal)) (key : String) (cur : ℤ) :
    Except PyErr ℤ :=
  match JVal.lookup uf key with
  | none => .ok cur
  | some v => JVal.pyAddNum cur v

/-- The model-name extraction at the top of `_extract`: record
`message.model`, else the top-level `model`, on first truthy
occurrence. -/
def extractModelStage (a : ExtAcc) (obj : JVal) (msgOpt : Option JVal) :
    ExtAcc :=
  if modelFalsy a.model then
    match msgOpt with
    | some (.jobj mf) =>
        match JVal.lookup mf "model" with
        | some mv => { a with model := some mv }
        | none =>
            match obj.objGet "model" with
            | some v => { a with model := some v }
            | none => a
    | _ =>
        match obj.objGet "model" with
        | some v => { a with model := some v }
        | none => a
  else a

/-- Anthropic `message_start`: accumulate `input_tokens` and the two
cache counters from `message.usage`. -/
def msgUsageStage (a : ExtAcc) (msgOpt : Option JVal) : Except PyErr ExtAcc :=
  match msgOpt with
  | some (.jobj mf) =>
      match JVal.lookup mf "usage" with
      | some (.jobj uf) => do
          let it ← getUsageNum uf "input_tokens" a.input_tokens
          let cr ← getUsageNum uf "cache_read_input_tokens"
            a.cache_read_input_tokens
          let cc ← getUsageNum uf "cache_creation_input_tokens"
            a.cache_creation_input_tokens
          pure { a with input_tokens := it, cache_read_input_tokens := cr
                      , cache_creation_input_tokens := cc }
      | _ => pure a
  | _ => pure a

/-- Anthropic `message_delta` (top-level `usage` with no nested
`message`): accumulate `output_tokens`. -/
def deltaStage (a : ExtAcc) (obj : JVal) : Except PyErr ExtAcc :=
  match obj.objGet "usage" with
  | some (.jobj uf) =>
      if !obj.hasKey "message" then do
        let ot ← getUsageNum uf "output_tokens" a.output_tokens
        pure { a with output_tokens := ot }
      else pure a
  | _ => pure a

/-- OpenAI final chunk (`usage` carrying `prompt_tokens`): accumulate
prompt/completion tokens. -/
def openaiStage (a : ExtAcc) (obj : JVal) : Except PyErr ExtAcc :=
  match obj.objGet "usage" with
  | some (.jobj uf) =>
      if (JVal.lookup uf "prompt_tokens").isSome then do
        let it ← getUsageNum uf "prompt_tokens" a.input_tokens
        let ot ← getUsageNum uf "completion_tokens" a.output_tokens
        pure { a with input_tokens := it, output_tokens := ot }
      else pure a
  | _ => pure a

/-- `SSETokenExtractor._extract` over a parsed payload, stage by stage
in source order.  A payload that parses to a non-dict raises
`AttributeError` at `obj.get` (the call is outside the `try` that
guards `json.loads`), and a mistyped usage value raises `TypeError` at
`+=`; both escape `feed`. -/
def extractObj (a : ExtAcc) (obj : JVal) : Except PyErr ExtAcc := do
  let msgOpt ← obj.pyGet "message"
  let a1 := extractModelStage a obj msgOpt
  let a2 ← msgUsageStage a1 msgOpt
  let a3 ← deltaStage a2 obj
  openaiStage a3 obj

/-- `b"data: "`. -/
def DATA_COLON_SPACE : List Nat := [100, 97, 116, 97, 58, 32]

/-- `b"[DONE]"`. -/
def DONE_BYTES : List Nat := [91, 68, 79, 78, 69, 93]

/-- `b'"usage"'`. -/
def USAGE_NEEDLE : List Nat := [34, 117, 115, 97, 103, 101, 34]

/-- `b'"model"'`. -/
def MODEL_NEEDLE : List Nat := [34, 109, 111, 100, 101, 108, 34]

/-- Byte-substring test (`needle in payload` on Python bytes). -/
def containsSub (needle hay : List Nat) : Bool :=
  (List.range (hay.length + 1)).any fun i => needle.isPrefixOf (hay.drop i)

/-- `SSETokenExtractor._process_line`. -/
def process_line (a : ExtAcc) (line : List Nat) : Except PyErr ExtAcc :=
  if !DATA_COLON_SPACE.isPrefixOf line then .ok a
  else
    let payload := line.drop 6
    if payload = DONE_BYTES then .ok a
    else if !(containsSub USAGE_NEEDLE payload
        || containsSub MODEL_NEEDLE payload) then .ok a
    else
      match jsonLoads payload with
      | none => .ok a
      | some obj => extractObj a obj

/-- `SSETokenExtractor.feed`: buffer the trailing partial line, process
every complete line. -/
def feed (s : SSETokenExtractor) (chunk : List Nat) :
    Except PyErr SSETokenExtractor := do
  let lines := splitNl (s.line_buffer ++ chunk)
  let acc' ← lines.dropLast.foldlM process_line s.acc
  pure { line_buffer := lines.getLastD [], acc := acc' }

/-- `SSETokenExtractor.finalize`: flush the residue. -/
def finalize (s : SSETokenExtractor) : Except PyErr SSETokenExtractor :=
  if !s.line_buffer.isEmpty then do
    let acc' ← process_line s.acc s.line_buffer
    pure { line_buffer := [], acc := acc' }
  else pure s

/-- `SSETokenExtractor.has_usage`. -/
def has_usage (a : ExtAcc) : Bool :=
  decide (0 < a.input_tokens) || decide (0 < a.output_tokens)

/-- Feed a sequence of chunks into a fresh extractor and finalize. -/
def runExtractor (chunks : List (List Nat)) :
    Except PyErr SSETokenExtractor := do
  let s ← chunks.foldlM feed {}
  finalize s

/-- The final observable values the claims speak about. -/
def extractorResult (chunks : List (List Nat)) :
    Except PyErr (ℤ × ℤ × Option JVal) :=
  (runExtractor chunks).map fun s =>
    (s.acc.input_tokens, s.acc.output_tokens, s.acc.model)

/-! ## Claim C3 — chunk invariance of the SSE extractor -/
/-- Prepend a (newline-free) prefix onto the first part of a split. -/
def consHead (pre : List Nat) : List (List Nat) → List (List Nat)
  | [] => [pre]
  | l :: ls => (pre ++ l) :: ls

/-- The byte-at-a-time view of the extractor: a newline flushes the
buffered line through `_process_line`, any other byte extends the
buffer.  `feed` is equivalent to folding this over the chunk. -/
def feedByte (s : SSETokenExtractor) (b : Nat) :
    Except PyErr SSETokenExtractor :=
  if b = 10 then do
    let acc' ← process_line s.acc s.line_buffer
    pure { line_buffer := [], acc := acc' }
  else .ok { s with line_buffer := s.line_buffer ++ [b] }

/-- Two partitions of one concrete Anthropic-style stream, witnessing
C3: a chunk boundary in the middle of a `data:` line does not change
the extracted totals. -/
def streamPartA : List (List Nat) :=
  [asciiBytes "data: \x7b\"message\": \x7b\"model\": \"claude-sonnet-4-5-20250929\", \"usage\": \x7b\"input_tokens\": 10\x7d\x7d\x7d\ndata: \x7b\"usa",
   asciiBytes "ge\": \x7b\"output_tokens\": 20\x7d\x7d\n"]

def streamPartB : List (List Nat) :=
  [asciiBytes "data: \x7b\"message\": \x7b\"model\": \"claude-sonnet-4-5-20250929\", \"usage\": \x7b\"input_tokens\": 10\x7d\x7d\x7d\n",
   asciiBytes "data: \x7b\"usage\": \x7b\"output_tokens\": 20\x7d\x7d\n"]

/-! ## Claim C10 — stream-end cost recording and cache separation -/
/-- `model = extractor.model or request_model` (Python `or`). -/
def pyModelOr (m : Option JVal) (request_model : JVal) : JVal :=
  match m with
  | some v => if v.pyTruthy then v else request_model
  | none => request_model

/-- The stream-end finalizer of `stream_with_usage` (`proxy.py` lines
560–563) composed with `BudgetManager.record_cost`: finalize the
extractor and, if usage was seen, record
`get_cost(model, input_tokens, output_tokens)` against the budget
manager.  A non-string model value would raise inside `get_cost`
(`dict.get` on an unhashable key, or `.startswith` on a non-string). -/
def stream_end_record (chunks : List (List Nat)) (request_model : JVal)
    (bm : BudgetManager) (now : ℚ) :
    Except PyErr (Option (JVal × ℚ × BudgetManager)) := do
  let s ← runExtractor chunks
  if has_usage s.acc then
    let m := pyModelOr s.acc.model request_model
    match m with
    | .jstr name =>
        let res := bm.record_cost now name s.acc.input_tokens
          s.acc.output_tokens
        pure (some (m, res.1, res.2))
    | .jarr _ => .error .typeError
    | .jobj _ => .error .typeError
    | _ => .error .attributeError
  else
    pure none

/-- Keys other than the two cache counters. -/
def nonCacheKey (k : String) : Bool :=
  !(k = "cache_read_input_tokens" || k = "cache_creation_input_tokens")

/-- Drop the two cache-counter keys from a `usage` object. -/
def stripUsageCache (v : JVal) : JVal :=
  match v with
  | .jobj uf => .jobj (uf.filter fun g => nonCacheKey g.1)
  | other => other

/-- Drop the cache-counter keys from a `message`'s `usage`. -/
def stripMsgUsage (v : JVal) : JVal :=
  match v with
  | .jobj mf =>
      .jobj (mf.map fun g =>
        (g.1, if g.1 = "usage" then stripUsageCache g.2 else g.2))
  | other => other

/-- Remove the `cache_read_input_tokens` and
`cache_creation_input_tokens` entries from a payload's
`message.usage`. -/
def stripCacheKeys (obj : JVal) : JVal :=
  match obj with
  | .jobj fields =>
      .jobj (fields.map fun f =>
        (f.1, if f.1 = "message" then stripMsgUsage f.2 else f.2))
  | other => other

/-- A concrete two-line Anthropic-style SSE stream: `message_start`
carries `input_tokens` 7 and `cache_read_input_tokens` 3,
`message_delta` carries `output_tokens` 11. -/
def c10Stream : List (List Nat) :=
  [asciiBytes "data: \x7b\"message\": \x7b\"model\": \"claude-3-5-haiku-20241022\", \"usage\": \x7b\"input_tokens\": 7, \"cache_read_input_tokens\": 3\x7d\x7d\x7d\n",
   asciiBytes "data: \x7b\"usage\": \x7b\"output_tokens\": 11\x7d\x7d\n"]

/-- The extractor state `c10Stream` produces: the cache counter lands
in its own field, away from `input_tokens`. -/
def c10State : SSETokenExtractor :=
  { line_buffer := []
  , acc := { input_tokens := 7, output_tokens := 11
           , cache_read_input_tokens := 3, cache_creation_input_tokens := 0
           , model := some (.jstr "claude-3-5-haiku-20241022") } }

def c10Bm : BudgetManager := { config := {} }

/-- The `record_cost` call made at the end of `c10Stream`. -/
def c10Res : ℚ × BudgetManager :=
  c10Bm.record_cost 0 "claude-3-5-haiku-20241022" 7 11

/-- A `message_start` payload carrying a cache counter next to
`input_tokens`. -/
def c10Obj : JVal :=
  .jobj [("message", .jobj [("usage", .jobj
    [("input_tokens", .jnum 7), ("cache_read_input_tokens", .jnum 3)])])]

/-- `_extract` on `c10Obj` from a fresh accumulator. -/
def c10Acc : ExtAcc :=
  { input_tokens := 7, cache_read_input_tokens := 3 }

theorem pct_threshold_mono {limit : ℚ} {p q : ℤ} (hpq : p ≤ q)
    (hl : 0 ≤ limit) : limit * (p : ℚ) / 100 ≤ limit * (q : ℚ) / 100 := by
  have hc : (p : ℚ) ≤ (q : ℚ) := by exact_mod_cast hpq
  have h1 : limit * (p : ℚ) ≤ limit * (q : ℚ) := mul_le_mul_of_nonneg_left hc hl
  linarith

theorem pct_threshold_le_limit {limit : ℚ} {q : ℤ} (hq : q ≤ 100)
    (hl : 0 ≤ limit) : limit * (q : ℚ) / 100 ≤ limit := by
  have hc : (q : ℚ) ≤ (100 : ℚ) := by exact_mod_cast hq
  have h1 : limit * (q : ℚ) ≤ limit * 100 := mul_le_mul_of_nonneg_left hc hl
  linarith

/-- C5: for every `BudgetConfig` whose configured windows satisfy
`warn_at_pct ≤ downgrade_at_pct ≤ 100` and `limit_usd ≥ 0`, and every
state of the cost-entry log (and instant `now`): `is_over_budget`
implies `should_downgrade`, and `should_downgrade` implies
`is_warning`. -/
theorem budget_predicate_monotone (bm : BudgetManager) (now : ℚ)
    (hw : ∀ w ∈ [bm.config.hourly, bm.config.daily, bm.config.monthly],
      windowWF w = true) :
    (bm.is_over_budget now = true → bm.should_downgrade now = true) ∧
    (bm.should_downgrade now = true → bm.is_warning now = true) := by
  have hmap : ∀ wc ∈ bm.checks now,
      wc.1 ∈ [bm.config.hourly, bm.config.daily, bm.config.monthly] := by
    intro wc hmem
    simp only [BudgetManager.checks, List.mem_cons, List.not_mem_nil,
      or_false] at hmem
    rcases hmem with rfl | rfl | rfl <;> simp
  constructor
  · intro h
    rw [BudgetManager.is_over_budget, List.any_eq_true] at h
    obtain ⟨wc, hmem, hcond⟩ := h
    rw [BudgetManager.should_downgrade, List.any_eq_true]
    refine ⟨wc, hmem, ?_⟩
    cases hwc : wc.1 with
    | none => rw [hwc] at hcond; exact absurd hcond (by simp)
    | some w =>
        rw [hwc] at hcond
        have hwf := hw wc.1 (hmap wc hmem)
        rw [hwc] at hwf
        simp only [windowWF, decide_eq_true_eq] at hwf
        obtain ⟨_h1, h2, h3⟩ := hwf
        simp only [decide_eq_true_eq] at hcond ⊢
        exact le_trans (pct_threshold_le_limit h2 h3) hcond
  · intro h
    rw [BudgetManager.should_downgrade, List.any_eq_true] at h
    obtain ⟨wc, hmem, hcond⟩ := h
    rw [BudgetManager.is_warning, List.any_eq_true]
    refine ⟨wc, hmem, ?_⟩
    cases hwc : wc.1 with
    | none => rw [hwc] at hcond; exact absurd hcond (by simp)
    | some w =>
        rw [hwc] at hcond
        have hwf := hw wc.1 (hmap wc hmem)
        rw [hwc] at hwf
        simp only [windowWF, decide_eq_true_eq] at hwf
        obtain ⟨h1, _h2, h3⟩ := hwf
        simp only [decide_eq_true_eq] at hcond ⊢
        exact le_trans (pct_threshold_mono h1 h3) hcond

theorem budget_predicate_monotone_witness :
    ((bmWitness.is_over_budget 3600 = true → bmWitness.should_downgrade 3600 = true) ∧
      (bmWitness.should_downgrade 3600 = true → bmWitness.is_warning 3600 = true)) ∧
    bmWitness.is_over_budget 3600 = true :=
  ⟨budget_predicate_monotone bmWitness 3600 (by decide), by decide⟩

/-! ## Claim C7 — `should_max_push` characterization -/
/-- C7: `should_max_push` is true iff a quota snapshot exists, the time
until its `tokens_reset` is strictly positive and at most
`push_within_minutes` minutes, and `tokens_remaining` is strictly
positive; with no snapshot it returns false. -/
theorem should_max_push_characterization (qt : QuotaTracker) (now : ℚ) :
    (qt.should_max_push now = true ↔
      ∃ snap, qt.latest = some snap ∧
        0 < (snap.tokens_reset - now) / 60 ∧
        (snap.tokens_reset - now) / 60 ≤ (qt.push_within_minutes : ℚ) ∧
        0 < snap.tokens_remaining) ∧
    (qt.latest = none → qt.should_max_push now = false) := by
  constructor
  · cases hq : qt.latest with
    | none => simp [QuotaTracker.should_max_push, hq]
    | some snap =>
        simp [QuotaTracker.should_max_push, hq, and_assoc]
  · intro h
    simp [QuotaTracker.should_max_push, h]

theorem should_max_push_characterization_witness :
    qtWitness.should_max_push 0 = true :=
  ((should_max_push_characterization qtWitness 0).1).mpr
    ⟨ { tokens_limit := 100000, tokens_remaining := 1000, tokens_reset := 300
      , requests_limit := 50, requests_remaining := 10, requests_reset := 300
      , updated_at := 0 }
    , rfl, by norm_num, by norm_num [qtWitness], by norm_num⟩

/-- C8 counterexample: with `tier_order = ["a", "b", "a"]` (non-empty)
and the member tier `"b"`, two single-step downgrades land on `"b"`
while one two-step downgrade lands on `"a"`, refuting
`downgrade_tier(downgrade_tier(t, a), b) = downgrade_tier(t, a + b)` as
quantified over every `RouterConfig` with non-empty `tier_order`. -/
theorem downgrade_tier_comp_cex :
    dupTierCfg.tier_order ≠ [] ∧
    "b" ∈ dupTierCfg.tier_order ∧
    downgrade_tier dupTierCfg (downgrade_tier dupTierCfg "b" 1) 1
      ≠ downgrade_tier dupTierCfg "b" (1 + 1) := by
  refine ⟨by simp [dupTierCfg], by simp [dupTierCfg], ?_⟩
  decide

/-- C8 (amended): for every `RouterConfig` whose `tier_order` has no
duplicate entries (as holds for every loader-produced config, where
`tier_order` is the key list of the `tiers` dict), every tier `t` in
`tier_order`, and all step counts `a, b ≥ 0`:
`downgrade_tier (downgrade_tier t a) b = downgrade_tier t (a + b)`,
with the index clamped to `len - 1`; and any tier name outside
`tier_order` is returned unchanged. -/
theorem getD_index_eq {α : Type} (l : List α) (d1 d2 : α) (i j : Nat)
    (hij : i = j) (hi : i < l.length) : l.getD i d1 = l.getD j d2 := by
  subst hij
  rw [List.getD_eq_getElem l d1 hi, List.getD_eq_getElem l d2 hi]

/-- Evaluation of `downgrade_tier` on a member tier: the clamped-index
lookup, in `getD` form. -/
theorem downgrade_tier_eval (config : RouterConfig) (t : String) (s : ℕ)
    (ht : t ∈ config.tier_order) :
    downgrade_tier config t s
      = config.tier_order.getD
          (min (config.tier_order.indexOf t + s) (config.tier_order.length - 1))
          t := by
  have hne : config.tier_order ≠ [] := List.ne_nil_of_mem ht
  have hc : config.tier_order.contains t = true := by simpa using ht
  simp only [downgrade_tier]
  rw [if_neg (by simp [hne]), if_pos hc]

/-- Evaluation of `downgrade_tier` on an unknown tier: returned
unchanged. -/
theorem downgrade_tier_unknown (config : RouterConfig) (u : String) (s : ℕ)
    (hu : u ∉ config.tier_order) : downgrade_tier config u s = u := by
  have hc : config.tier_order.contains u = false := by simpa using hu
  simp only [downgrade_tier]
  by_cases he : config.tier_order.isEmpty = true
  · rw [if_pos he]
  · rw [if_neg he, if_neg (by rw [hc]; simp)]

theorem downgrade_tier_comp (config : RouterConfig) (t : String) (a b : ℕ)
    (hnd : config.tier_order.Nodup) (ht : t ∈ config.tier_order) :
    downgrade_tier config (downgrade_tier config t a) b
      = downgrade_tier config t (a + b) ∧
    ∀ u, u ∉ config.tier_order → downgrade_tier config u b = u := by
  constructor
  · have hlen : 0 < config.tier_order.length :=
      List.length_pos.mpr (List.ne_nil_of_mem ht)
    have hidx : config.tier_order.indexOf t < config.tier_order.length :=
      List.indexOf_lt_length.mpr ht
    have hj : min (config.tier_order.indexOf t + a)
        (config.tier_order.length - 1) < config.tier_order.length := by omega
    have hstep1 : downgrade_tier config t a
        = config.tier_order.getD
            (min (config.tier_order.indexOf t + a) (config.tier_order.length - 1))
            t :=
      downgrade_tier_eval config t a ht
    have hgetElem : config.tier_order.getD
        (min (config.tier_order.indexOf t + a) (config.tier_order.length - 1)) t
        = config.tier_order.get ⟨_, hj⟩ := by
      rw [List.getD_eq_get]
    have hmem1 : downgrade_tier config t a ∈ config.tier_order := by
      rw [hstep1, hgetElem]
      exact List.get_mem _ _ _
    have hidx1 : config.tier_order.indexOf (downgrade_tier config t a)
        = min (config.tier_order.indexOf t + a) (config.tier_order.length - 1) := by
      rw [hstep1, hgetElem]
      exact List.get_indexOf hnd _
    rw [downgrade_tier_eval config _ b hmem1, downgrade_tier_eval config t (a + b) ht,
      hidx1]
    refine getD_index_eq _ _ _ _ _ (by omega) (by omega)
  · intro u hu
    exact downgrade_tier_unknown config u b hu

theorem downgrade_tier_comp_witness :
    (downgrade_tier triTierCfg (downgrade_tier triTierCfg "tier1" 1) 2
        = downgrade_tier triTierCfg "tier1" (1 + 2)) ∧
    ∀ u, u ∉ triTierCfg.tier_order → downgrade_tier triTierCfg u 2 = u :=
  downgrade_tier_comp triTierCfg "tier1" 1 2 (by decide)
    (by simp [triTierCfg])

theorem mem_pruneEntries_ge (now : ℚ) :
    ∀ entries : List CostEntry, entriesSorted entries →
      ∀ e ∈ pruneEntries now entries, now - thirtyOneDays ≤ e.timestamp := by
  intro entries
  induction entries with
  | nil => intro _ e he; simp [pruneEntries] at he
  | cons hd tl ih =>
      intro hp e he
      rw [pruneEntries, List.dropWhile_cons] at he
      by_cases hc : hd.timestamp < now - thirtyOneDays
      · rw [if_pos (by simpa using hc)] at he
        exact ih (List.Pairwise.of_cons hp) e he
      · rw [if_neg (by simpa using hc)] at he
        rcases List.mem_cons.mp he with rfl | hetl
        · linarith [not_lt.mp hc]
        · have hfwd := (List.pairwise_cons.mp hp).1 e hetl
          linarith [not_lt.mp hc]

theorem record_cost_step (bm : BudgetManager) (now : ℚ) (m : String)
    (i o : ℤ) (hs : entriesSorted bm.entries)
    (hle : ∀ e ∈ bm.entries, e.timestamp ≤ now) :
    entriesSorted ((bm.record_cost now m i o).2).entries ∧
    (∀ e ∈ ((bm.record_cost now m i o).2).entries, e.timestamp ≤ now) ∧
    (∀ e ∈ ((bm.record_cost now m i o).2).entries,
      now - thirtyOneDays ≤ e.timestamp) := by
  have hsApp : entriesSorted (bm.entries ++
      [{ timestamp := now, model := m, input_tokens := i, output_tokens := o
       , cost_usd := get_cost m i o }]) := by
    rw [entriesSorted, List.pairwise_append]
    exact ⟨hs, List.pairwise_singleton _ _, fun e he f hf => by
      rw [List.mem_singleton.mp hf]
      exact hle e he⟩
  have hmemApp : ∀ e ∈ ((bm.record_cost now m i o).2).entries,
      e ∈ bm.entries ++
        [{ timestamp := now, model := m, input_tokens := i, output_tokens := o
         , cost_usd := get_cost m i o }] := by
    intro e he
    simp only [BudgetManager.record_cost, pruneEntries] at he
    exact List.dropWhile_sublist _ |>.mem he
  refine ⟨?_, ?_, ?_⟩
  · simp only [BudgetManager.record_cost]
    exact List.Pairwise.sublist (List.dropWhile_sublist _) hsApp
  · intro e he
    rcases List.mem_append.mp (hmemApp e he) with h | h
    · exact hle e h
    · rw [List.mem_singleton.mp h]
  · intro e he
    simp only [BudgetManager.record_cost] at he
    exact mem_pruneEntries_ge now _ hsApp e he

theorem runRecords_last (calls : List (ℚ × String × ℤ × ℤ)) :
    ∀ (bm : BudgetManager) (t0 : ℚ), entriesSorted bm.entries →
      (∀ e ∈ bm.entries, e.timestamp ≤ t0) →
      List.Chain (· ≤ ·) t0 (calls.map fun c => c.1) →
      ∀ tLast, (calls.map fun c => c.1).getLast? = some tLast →
        ∀ e ∈ (runRecords bm calls).entries,
          tLast - thirtyOneDays ≤ e.timestamp := by
  induction calls with
  | nil => intro bm t0 _ _ _ tLast hlast; simp at hlast
  | cons c rest ih =>
      intro bm t0 hs hle hchain tLast hlast
      simp only [List.map_cons, List.chain_cons] at hchain
      obtain ⟨h01, hchain'⟩ := hchain
      have hle' : ∀ e ∈ bm.entries, e.timestamp ≤ c.1 := fun e he =>
        le_trans (hle e he) h01
      obtain ⟨hs1, hle1, hge1⟩ :=
        record_cost_step bm c.1 c.2.1 c.2.2.1 c.2.2.2 hs hle'
      have hrun : runRecords bm (c :: rest)
          = runRecords ((bm.record_cost c.1 c.2.1 c.2.2.1 c.2.2.2).2) rest := rfl
      rw [hrun]
      cases hrest : rest with
      | nil =>
          subst hrest
          simp only [List.map_cons, List.map_nil, List.getLast?_singleton,
            Option.some.injEq] at hlast
          subst hlast
          simpa [runRecords] using hge1
      | cons d ds =>
          subst hrest
          have hlast' : ((d :: ds).map fun c => c.1).getLast? = some tLast := by
            rw [List.map_cons, List.map_cons, List.getLast?_cons_cons] at hlast
            rwa [List.map_cons]
          exact ih _ c.1 hs1 hle1 hchain' tLast hlast'

/-- C9: starting from a fresh manager and any sequence of `record_cost`
calls with non-decreasing wall-clock times (the spec's
"timestamps monotonic per producer"), after the final call every entry
remaining in the log is at most 31 days older than that call's time —
and since any call is the last call of its prefix, this holds after
every call. -/
theorem record_cost_prunes_old_entries (cfg : BudgetConfig)
    (calls : List (ℚ × String × ℤ × ℤ)) (tLast : ℚ)
    (hmono : (calls.map fun c => c.1).Chain' (· ≤ ·))
    (hlast : (calls.map fun c => c.1).getLast? = some tLast) :
    ∀ e ∈ (runRecords { config := cfg, entries := [] } calls).entries,
      tLast - thirtyOneDays ≤ e.timestamp := by
  cases calls with
  | nil => simp at hlast
  | cons c rest =>
      have hchain : List.Chain (· ≤ ·) c.1 ((c :: rest).map fun x => x.1) := by
        rw [List.map_cons, List.chain_cons]
        exact ⟨le_refl _, by
          simpa only [List.map_cons, List.chain'_cons] using hmono⟩
      exact runRecords_last (c :: rest) { config := cfg, entries := [] } c.1
        (by simp [entriesSorted]) (by simp) hchain tLast hlast

theorem record_cost_prunes_old_entries_witness :
    ((runRecords { config := {}, entries := [] } callsWitness).entries.all
      fun e => decide ((432000 : ℚ) - thirtyOneDays ≤ e.timestamp)) = true := by
  have h := record_cost_prunes_old_entries {} callsWitness 432000
    (by norm_num [callsWitness, List.chain'_cons]) rfl
  exact List.all_eq_true.mpr fun e he => decide_eq_true (h e he)

/-! ## Claims C1 and C4 — the smart-routing pipeline -/
@[simp]
theorem ok_bind {ε α β : Type} (a : α) (f : α → Except ε β) :
    (Except.ok a : Except ε α) >>= f = f a := rfl

@[simp]
theorem error_bind {ε α β : Type} (e : ε) (f : α → Except ε β) :
    (Except.error e : Except ε α) >>= f = Except.error e := rfl

/-- Whenever the tracker reports `should_max_push` (and classification
succeeded), the routing block raises `AttributeError` at the
`_budget_config.max_push_tier` read — for any budget-config state of
this repository's config variant. -/
theorem routingBlock_push_raises (st : RouterState) (now : ℚ) (body : JVal)
    (tier : String)
    (hclass : classify_request st.classifier body st.router_config.default_tier
      = .ok tier)
    (hpush : (match st.quota_tracker with
      | some qt => qt.should_max_push now
      | none => false) = true) :
    routingBlock st now body = .error .attributeError := by
  simp only [routingBlock, hclass, ok_bind, hpush, if_true]
  cases hbc : st.budget_config with
  | none => rfl
  | some bc => rfl

/-- C1 (code bug): in the max-push situation — router ready, trackable
POST, parseable body, `should_max_push()` true — the pipeline does NOT
override the tier to `max_push_tier`/`tier_order[0]` and route there
(the top tier is resolvable), because `BudgetConfig` declares no
`max_push_tier` attribute: the read raises `AttributeError` and the
fail-open handler sends the request to legacy forwarding instead. -/
theorem max_push_read_raises :
    proxy_route_stage maxPushState 0 "POST" "v1/messages" (some maxPushBody)
        = .legacy ∧
    QuotaTracker.should_max_push
        { latest := some maxPushSnap, push_within_minutes := 15 } 0 = true ∧
    "max_push_tier" ∉ BudgetConfigFields ∧
    routingBlock maxPushState 0 maxPushBody = .error .attributeError ∧
    resolve_target maxPushCfg "tier1" [] ≠ none := by
  have hpush : QuotaTracker.should_max_push
      { latest := some maxPushSnap, push_within_minutes := 15 } 0 = true := by
    simp only [QuotaTracker.should_max_push, maxPushSnap]
    norm_num
  have hclass : classify_request maxPushState.classifier maxPushBody
      maxPushState.router_config.default_tier = .ok "tier2" := rfl
  have hblock : routingBlock maxPushState 0 maxPushBody
      = .error .attributeError :=
    routingBlock_push_raises maxPushState 0 maxPushBody "tier2" hclass
      (by simp only [maxPushState]; exact hpush)
  have hcond : (maxPushState.smart_router_ready
      && is_trackable "POST" "v1/messages") = true := by decide
  refine ⟨?_, hpush, by decide, hblock, ?_⟩
  · simp only [proxy_route_stage, hcond, if_true, smart_routing, hblock]
  · simp [resolve_target, maxPushCfg, mainProvider, dictGet]

/-- C4 counterexample: with the router ready, a trackable POST, a
parseable body, `shouldMaxPush()` false (no snapshot), the manager over
budget and `over_budget_action = "reject"`, the request with body
`{"tools": 42}` is NOT answered 429: classification raises `TypeError`
first and the fail-open handler forwards the request upstream via the
legacy path. -/
theorem over_budget_reject_cex :
    (BudgetManager.is_over_budget { config := rejectBudget, entries := [] } 0
        = true) ∧
    rejectBudget.over_budget_action = "reject" ∧
    rejectState.budget_manager = some { config := rejectBudget, entries := [] } ∧
    rejectState.quota_tracker = none ∧
    rejectState.smart_router_ready = true ∧
    is_trackable "POST" "v1/messages" = true ∧
    proxy_route_stage rejectState 0 "POST" "v1/messages" (some badToolsBody)
      = .legacy := by
  refine ⟨by decide, rfl, rfl, rfl, rfl, by decide, ?_⟩
  have hclass : classify_request rejectState.classifier badToolsBody
      rejectState.router_config.default_tier = .error .typeError := rfl
  have hcond : (rejectState.smart_router_ready
      && is_trackable "POST" "v1/messages") = true := by decide
  simp only [proxy_route_stage, hcond, if_true, smart_routing, routingBlock,
    hclass, error_bind]

/-- C4 (amended): for every trackable request handled while the router
is ready with a parseable body, if classification completes without
raising, `shouldMaxPush()` is false, `is_over_budget()` is true, and
`over_budget_action = "reject"`, then the routing stage answers the
budget-exceeded 429 directly — no target is resolved and no upstream
request is issued. -/
theorem over_budget_reject (st : RouterState) (now : ℚ)
    (method path : String) (body : JVal) (tier : String) (bm : BudgetManager)
    (hready : st.smart_router_ready = true)
    (htrack : is_trackable method path = true)
    (hclass : classify_request st.classifier body st.router_config.default_tier
      = .ok tier)
    (hpush : ∀ qt, st.quota_tracker = some qt → qt.should_max_push now = false)
    (hbm : st.budget_manager = some bm)
    (hover : bm.is_over_budget now = true)
    (hact : bm.config.over_budget_action = "reject") :
    proxy_route_stage st now method path (some body)
      = .reject429 BUDGET_EXCEEDED_BODY := by
  have hpushEval :
      (match st.quota_tracker with
        | some qt => qt.should_max_push now
        | none => false) = false := by
    cases hqt : st.quota_tracker with
    | none => rfl
    | some qt => exact hpush qt hqt
  simp only [proxy_route_stage, hready, htrack, Bool.and_self, if_true,
    smart_routing, routingBlock, hclass, ok_bind, hpushEval, Bool.false_eq_true,
    if_false, hbm, hover, hact, if_true]
  rfl

theorem over_budget_reject_witness :
    proxy_route_stage rejectWitnessState 0 "POST" "v1/messages"
      (some (.jobj [])) = .reject429 BUDGET_EXCEEDED_BODY :=
  over_budget_reject rejectWitnessState 0 "POST" "v1/messages" (.jobj [])
    "tier1" { config := rejectBudget, entries := [] } rfl (by decide) rfl
    (fun qt h => by cases h) rfl (by decide) rfl

/-! ## Claim C2 — the cost function against the spec's selection rule -/
/-- C2: for every model string and non-negative integer token counts,
`get_cost` equals `(in_tok·in_price + out_tok·out_price) / 1e6` where
the prices are selected exactly as the claim words it
(`specSelectedPrices`): exact key match, else first two-way prefix match
in iteration order, else the defaults `(3.00, 15.00)`. -/
theorem get_cost_eq_spec_selection (model : String) (in_tok out_tok : ℕ) :
    get_cost model in_tok out_tok
      = ((in_tok : ℚ) * (specSelectedPrices model).1
          + (out_tok : ℚ) * (specSelectedPrices model).2) / 1000000 := by
  cases hm : modelCostsGet model with
  | some c => simp [get_cost, specSelectedPrices, hm]
  | none =>
      cases hp : prefixMatchCosts model with
      | some c => simp [get_cost, specSelectedPrices, hm, hp]
      | none =>
          simp [get_cost, specSelectedPrices, hm, hp,
            DEFAULT_INPUT_COST_PER_1M, DEFAULT_OUTPUT_COST_PER_1M]

theorem lookup_setKey_self (k : String) (v : JVal) :
    ∀ fields, JVal.lookup (JVal.setKey fields k v) k = some v
  | [] => by simp [JVal.setKey, JVal.lookup]
  | (k1, v1) :: rest => by
      by_cases h1 : k1 = k
      · subst h1
        simp [JVal.setKey, JVal.lookup]
      · simp only [JVal.setKey, if_neg h1, JVal.lookup, if_neg h1]
        exact lookup_setKey_self k v rest

theorem lookup_setKey_ne (k k' : String) (v : JVal) (h : k' ≠ k) :
    ∀ fields, JVal.lookup (JVal.setKey fields k v) k' = JVal.lookup fields k'
  | [] => by
      simp only [JVal.setKey, JVal.lookup]
      rw [if_neg (Ne.symm h)]
  | (k1, v1) :: rest => by
      by_cases h1 : k1 = k
      · subst h1
        simp only [JVal.setKey, if_pos rfl, JVal.lookup]
        rw [if_neg (Ne.symm h), if_neg (Ne.symm h)]
      · simp only [JVal.setKey, if_neg h1, JVal.lookup]
        by_cases h2 : k1 = k'
        · rw [if_pos h2, if_pos h2]
        · rw [if_neg h2, if_neg h2]
          exact lookup_setKey_ne k k' v h rest

theorem detect_strip_eq_nil (t : String) :
    detect_hidden_unicode (strip_hidden_unicode t) = [] := by
  rw [detect_hidden_unicode, List.filterMap_eq_nil]
  intro ic hic
  have hget := List.mem_enum_iff_getElem?.mp hic
  have hc : ic.2 ∈ (strip_hidden_unicode t).data := List.getElem?_mem hget
  have hdata : (strip_hidden_unicode t).data
      = t.data.filter (fun ch => !isHiddenCp ch.toNat) := rfl
  rw [hdata] at hc
  have hnot : ¬ isHiddenCp ic.2.toNat = true := by
    have := List.of_mem_filter hc
    simpa using this
  simp [hnot]

theorem isTextBlock_setText (fields : List (String × JVal)) (v : JVal) :
    isTextBlock (JVal.setKey fields "text" v) = isTextBlock fields := by
  unfold isTextBlock
  rw [lookup_setKey_ne "text" "type" v (by decide) fields]

theorem stripBlock_blockTextString (bl b' : JVal) (h : stripBlock bl = .ok b')
    (s : String) (hs : blockTextString b' = some s) :
    ∃ t, s = strip_hidden_unicode t := by
  cases bl with
  | jobj fields =>
      by_cases htb : isTextBlock fields = true
      · cases hgd : (JVal.lookup fields "text").getD (.jstr "") with
        | jstr s0 =>
            simp only [stripBlock, htb, if_true, hgd, Except.ok.injEq] at h
            subst h
            simp only [blockTextString, isTextBlock_setText, htb, if_true,
              lookup_setKey_self, Option.some.injEq] at hs
            exact ⟨s0, hs.symm⟩
        | jnull =>
            simp only [stripBlock, htb, if_true, hgd] at h
            exact Except.noConfusion h
        | jbool b =>
            simp only [stripBlock, htb, if_true, hgd] at h
            exact Except.noConfusion h
        | jnum q =>
            simp only [stripBlock, htb, if_true, hgd] at h
            exact Except.noConfusion h
        | jarr elems =>
            simp only [stripBlock, htb, if_true, hgd] at h
            exact Except.noConfusion h
        | jobj fs =>
            simp only [stripBlock, htb, if_true, hgd] at h
            exact Except.noConfusion h
      · rw [Bool.not_eq_true] at htb
        simp only [stripBlock, htb, Bool.false_eq_true, if_false,
          Except.ok.injEq] at h
        subst h
        simp only [blockTextString, htb, Bool.false_eq_true, if_false] at hs
        exact Option.noConfusion hs
  | jnull =>
      simp only [stripBlock, Except.ok.injEq] at h
      subst h
      simp only [blockTextString] at hs
      exact Option.noConfusion hs
  | jbool b =>
      simp only [stripBlock, Except.ok.injEq] at h
      subst h
      simp only [blockTextString] at hs
      exact Option.noConfusion hs
  | jnum q =>
      simp only [stripBlock, Except.ok.injEq] at h
      subst h
      simp only [blockTextString] at hs
      exact Option.noConfusion hs
  | jstr s1 =>
      simp only [stripBlock, Except.ok.injEq] at h
      subst h
      simp only [blockTextString] at hs
      exact Option.noConfusion hs
  | jarr elems =>
      simp only [stripBlock, Except.ok.injEq] at h
      subst h
      simp only [blockTextString] at hs
      exact Option.noConfusion hs

theorem blockTextStrings_strip (blocks blocks' : List JVal)
    (h : blocks.mapM stripBlock = .ok blocks') :
    ∀ s ∈ blockTextStrings blocks', ∃ t, s = strip_hidden_unicode t := by
  induction blocks generalizing blocks' with
  | nil =>
      simp only [List.mapM_nil, pure, Except.pure, Except.ok.injEq] at h
      subst h
      intro s hsmem
      simp [blockTextStrings] at hsmem
  | cons bl rest ih =>
      rw [List.mapM_cons] at h
      cases hb : stripBlock bl with
      | error e => rw [hb] at h; simp [Except.bind] at h
      | ok bhd =>
          rw [hb] at h
          cases hr : rest.mapM stripBlock with
          | error e =>
              rw [hr] at h
              simp only [ok_bind, error_bind] at h
              exact Except.noConfusion h
          | ok rtl =>
              rw [hr] at h
              simp only [ok_bind] at h
              simp only [pure, Except.pure, Except.ok.injEq] at h
              subst h
              intro s hsmem
              rw [blockTextStrings, List.filterMap_cons] at hsmem
              cases hbts : blockTextString bhd with
              | none =>
                  rw [hbts] at hsmem
                  exact ih rtl hr s hsmem
              | some s1 =>
                  rw [hbts] at hsmem
                  rcases List.mem_cons.mp hsmem with rfl | hmem
                  · exact stripBlock_blockTextString bl bhd hb s hbts
                  · exact ih rtl hr s hmem

theorem stripMsg_msgTextStrings (msg msg' : JVal)
    (h : stripMsg msg = .ok msg') :
    ∀ s ∈ msgTextStrings msg', ∃ t, s = strip_hidden_unicode t := by
  cases msg with
  | jobj mf =>
      have hget : JVal.pyGet (.jobj mf) "content" = .ok (JVal.lookup mf "content") :=
        rfl
      cases hc : (JVal.lookup mf "content").getD (.jstr "") with
      | jstr s0 =>
          simp only [stripMsg, hget, ok_bind, hc, pure, Except.pure,
            Except.ok.injEq] at h
          subst h
          intro s hsmem
          simp only [msgTextStrings, JVal.objGet, lookup_setKey_self] at hsmem
          rw [List.mem_singleton] at hsmem
          exact ⟨s0, hsmem⟩
      | jarr blocks =>
          simp only [stripMsg, hget, ok_bind, hc] at h
          cases hbs : blocks.mapM stripBlock with
          | error e =>
              rw [hbs] at h
              simp only [error_bind] at h
              exact Except.noConfusion h
          | ok blocks' =>
              rw [hbs] at h
              simp only [ok_bind, pure, Except.pure, Except.ok.injEq] at h
              subst h
              intro s hsmem
              simp only [msgTextStrings, JVal.objGet, lookup_setKey_self] at hsmem
              exact blockTextStrings_strip blocks blocks' hbs s hsmem
      | jnull =>
          simp only [stripMsg, hget, ok_bind, hc, pure, Except.pure,
            Except.ok.injEq] at h
          subst h
          intro s hsmem
          rcases hlk : JVal.lookup mf "content" with _ | cv
          · rw [hlk] at hc
            exact JVal.noConfusion hc
          · rw [hlk] at hc
            simp only [Option.getD] at hc
            subst hc
            simp [msgTextStrings, JVal.objGet, hlk] at hsmem
      | jbool b0 =>
          simp only [stripMsg, hget, ok_bind, hc, pure, Except.pure,
            Except.ok.injEq] at h
          subst h
          intro s hsmem
          rcases hlk : JVal.lookup mf "content" with _ | cv
          · rw [hlk] at hc
            exact JVal.noConfusion hc
          · rw [hlk] at hc
            simp only [Option.getD] at hc
            subst hc
            simp [msgTextStrings, JVal.objGet, hlk] at hsmem
      | jnum q0 =>
          simp only [stripMsg, hget, ok_bind, hc, pure, Except.pure,
            Except.ok.injEq] at h
          subst h
          intro s hsmem
          rcases hlk : JVal.lookup mf "content" with _ | cv
          · rw [hlk] at hc
            exact JVal.noConfusion hc
          · rw [hlk] at hc
            simp only [Option.getD] at hc
            subst hc
            simp [msgTextStrings, JVal.objGet, hlk] at hsmem
      | jobj fs0 =>
          simp only [stripMsg, hget, ok_bind, hc, pure, Except.pure,
            Except.ok.injEq] at h
          subst h
          intro s hsmem
          rcases hlk : JVal.lookup mf "content" with _ | cv
          · rw [hlk] at hc
            exact JVal.noConfusion hc
          · rw [hlk] at hc
            simp only [Option.getD] at hc
            subst hc
            simp [msgTextStrings, JVal.objGet, hlk] at hsmem
  | jnull =>
      simp only [stripMsg, JVal.pyGet, error_bind] at h
      exact Except.noConfusion h
  | jbool b =>
      simp only [stripMsg, JVal.pyGet, error_bind] at h
      exact Except.noConfusion h
  | jnum q =>
      simp only [stripMsg, JVal.pyGet, error_bind] at h
      exact Except.noConfusion h
  | jstr s1 =>
      simp only [stripMsg, JVal.pyGet, error_bind] at h
      exact Except.noConfusion h
  | jarr elems =>
      simp only [stripMsg, JVal.pyGet, error_bind] at h
      exact Except.noConfusion h

theorem mapM_ok_mem {α β : Type} (f : α → Except PyErr β) :
    ∀ (l : List α) (res : List β), l.mapM f = .ok res →
      ∀ y ∈ res, ∃ x ∈ l, f x = .ok y := by
  intro l
  induction l with
  | nil =>
      intro res h y hy
      simp only [List.mapM_nil, pure, Except.pure, Except.ok.injEq] at h
      subst h
      simp at hy
  | cons a rest ih =>
      intro res h y hy
      rw [List.mapM_cons] at h
      cases ha : f a with
      | error e => rw [ha] at h; simp only [error_bind] at h; exact Except.noConfusion h
      | ok b =>
          rw [ha] at h
          simp only [ok_bind] at h
          cases hr : rest.mapM f with
          | error e =>
              rw [hr] at h
              simp only [error_bind] at h
              exact Except.noConfusion h
          | ok res' =>
              rw [hr] at h
              simp only [ok_bind, pure, Except.pure, Except.ok.injEq] at h
              subst h
              rcases List.mem_cons.mp hy with rfl | hmem
              · exact ⟨a, List.mem_cons_self a rest, ha⟩
              · obtain ⟨x, hx, hfx⟩ := ih res' hr y hmem
                exact ⟨x, List.mem_cons_of_mem a hx, hfx⟩

/-- What the messages loop produces: an object whose `system` binding is
unchanged and whose message text positions are all strip images. -/
theorem stripBodyMessages_spec (fields1 : List (String × JVal))
    (stripped : JVal) (h : stripBodyMessages fields1 = .ok stripped) :
    ∃ fieldsS, stripped = .jobj fieldsS ∧
      JVal.lookup fieldsS "system" = JVal.lookup fields1 "system" ∧
      ∀ s ∈ (match JVal.lookup fieldsS "messages" with
              | some (.jarr msgs) => msgs.flatMap msgTextStrings
              | _ => ([] : List String)),
        ∃ t, s = strip_hidden_unicode t := by
  rcases hmv : JVal.lookup fields1 "messages" with _ | mv
  · -- key absent: the loop runs over the default empty list, body unchanged
    simp only [stripBodyMessages, hmv, Option.getD, Option.isSome,
      List.mapM_nil, ok_bind, Bool.false_eq_true, if_false, pure, Except.pure,
      Except.ok.injEq] at h
    subst h
    exact ⟨fields1, rfl, rfl, by rw [hmv]; intro s hs; simp at hs⟩
  · cases mv with
    | jarr msgs =>
        simp only [stripBodyMessages, hmv, Option.getD] at h
        cases hms : msgs.mapM stripMsg with
        | error e =>
            rw [hms] at h
            simp only [error_bind] at h
            exact Except.noConfusion h
        | ok msgs' =>
            rw [hms] at h
            simp only [ok_bind, Option.isSome, if_true, pure, Except.pure,
              Except.ok.injEq] at h
            subst h
            refine ⟨_, rfl, lookup_setKey_ne "messages" "system" _ (by decide)
              fields1, ?_⟩
            rw [lookup_setKey_self]
            intro s hs
            obtain ⟨msg', hmem', hsmem⟩ := List.mem_flatMap.mp hs
            obtain ⟨msg, _hmem, hstrip⟩ :=
              mapM_ok_mem stripMsg msgs msgs' hms msg' hmem'
            exact stripMsg_msgTextStrings msg msg' hstrip s hsmem
    | jnull =>
        simp only [stripBodyMessages, hmv, Option.getD, pyIter, error_bind] at h
        exact Except.noConfusion h
    | jbool b =>
        simp only [stripBodyMessages, hmv, Option.getD, pyIter, error_bind] at h
        exact Except.noConfusion h
    | jnum q =>
        simp only [stripBodyMessages, hmv, Option.getD, pyIter, error_bind] at h
        exact Except.noConfusion h
    | jstr sv =>
        -- iterating a string yields its characters; each `.get` raises
        -- unless the string is empty, in which case the body is unchanged
        simp only [stripBodyMessages, hmv, Option.getD, pyIter, ok_bind] at h
        cases hmm : (sv.data.map fun c => JVal.jstr (String.mk [c])).mapM
            (fun msg => do
              let _ ← msg.pyGet "content"
              (pure () : Except PyErr Unit)) with
        | error e =>
            rw [hmm] at h
            simp only [error_bind] at h
            exact Except.noConfusion h
        | ok us =>
            rw [hmm] at h
            simp only [ok_bind, pure, Except.pure, Except.ok.injEq] at h
            subst h
            exact ⟨fields1, rfl, rfl, by rw [hmv]; intro s hs; simp at hs⟩
    | jobj fs =>
        simp only [stripBodyMessages, hmv, Option.getD, pyIter, ok_bind] at h
        cases hmm : (fs.map fun f => JVal.jstr f.1).mapM
            (fun msg => do
              let _ ← msg.pyGet "content"
              (pure () : Except PyErr Unit)) with
        | error e =>
            rw [hmm] at h
            simp only [error_bind] at h
            exact Except.noConfusion h
        | ok us =>
            rw [hmm] at h
            simp only [ok_bind, pure, Except.pure, Except.ok.injEq] at h
            subst h
            exact ⟨fields1, rfl, rfl, by rw [hmv]; intro s hs; simp at hs⟩

/-- Every text position of a successfully stripped body is the image of
`strip_hidden_unicode`. -/
theorem strip_body_positions (body stripped : JVal)
    (h : strip_hidden_unicode_from_body body = .ok stripped) :
    ∀ s ∈ allTextPositions stripped, ∃ t, s = strip_hidden_unicode t := by
  cases body with
  | jobj fields =>
      have hpg : JVal.pyGet (.jobj fields) "system"
          = .ok (JVal.lookup fields "system") := rfl
      rcases hsys : JVal.lookup fields "system" with _ | sv
      · simp only [strip_hidden_unicode_from_body, hpg, ok_bind, hsys, pure,
          Except.pure] at h
        obtain ⟨fieldsS, rfl, hsysS, hmsgsS⟩ := stripBodyMessages_spec fields
          stripped h
        intro s hs
        simp only [allTextPositions, JVal.objGet, hsysS, hsys,
          List.nil_append] at hs
        exact hmsgsS s hs
      · cases sv with
        | jstr s0 =>
            simp only [strip_hidden_unicode_from_body, hpg, ok_bind, hsys, pure,
              Except.pure] at h
            obtain ⟨fieldsS, rfl, hsysS, hmsgsS⟩ := stripBodyMessages_spec _
              stripped h
            rw [lookup_setKey_self] at hsysS
            intro s hs
            simp only [allTextPositions, JVal.objGet, hsysS] at hs
            rcases List.mem_append.mp hs with hs1 | hs2
            · rw [List.mem_singleton] at hs1
              exact ⟨s0, hs1⟩
            · exact hmsgsS s hs2
        | jarr blocks =>
            simp only [strip_hidden_unicode_from_body, hpg, ok_bind, hsys] at h
            cases hbs : blocks.mapM stripBlock with
            | error e =>
                rw [hbs] at h
                simp only [error_bind] at h
                exact Except.noConfusion h
            | ok blocks' =>
                rw [hbs] at h
                simp only [ok_bind, pure, Except.pure] at h
                obtain ⟨fieldsS, rfl, hsysS, hmsgsS⟩ := stripBodyMessages_spec _
                  stripped h
                rw [lookup_setKey_self] at hsysS
                intro s hs
                simp only [allTextPositions, JVal.objGet, hsysS] at hs
                rcases List.mem_append.mp hs with hs1 | hs2
                · exact blockTextStrings_strip blocks blocks' hbs s hs1
                · exact hmsgsS s hs2
        | jnull =>
            simp only [strip_hidden_unicode_from_body, hpg, ok_bind, hsys, pure,
              Except.pure] at h
            obtain ⟨fieldsS, rfl, hsysS, hmsgsS⟩ := stripBodyMessages_spec fields
              stripped h
            intro s hs
            simp only [allTextPositions, JVal.objGet, hsysS, hsys,
              List.nil_append] at hs
            exact hmsgsS s hs
        | jbool b0 =>
            simp only [strip_hidden_unicode_from_body, hpg, ok_bind, hsys, pure,
              Except.pure] at h
            obtain ⟨fieldsS, rfl, hsysS, hmsgsS⟩ := stripBodyMessages_spec fields
              stripped h
            intro s hs
            simp only [allTextPositions, JVal.objGet, hsysS, hsys,
              List.nil_append] at hs
            exact hmsgsS s hs
        | jnum q0 =>
            simp only [strip_hidden_unicode_from_body, hpg, ok_bind, hsys, pure,
              Except.pure] at h
            obtain ⟨fieldsS, rfl, hsysS, hmsgsS⟩ := stripBodyMessages_spec fields
              stripped h
            intro s hs
            simp only [allTextPositions, JVal.objGet, hsysS, hsys,
              List.nil_append] at hs
            exact hmsgsS s hs
        | jobj fs0 =>
            simp only [strip_hidden_unicode_from_body, hpg, ok_bind, hsys, pure,
              Except.pure] at h
            obtain ⟨fieldsS, rfl, hsysS, hmsgsS⟩ := stripBodyMessages_spec fields
              stripped h
            intro s hs
            simp only [allTextPositions, JVal.objGet, hsysS, hsys,
              List.nil_append] at hs
            exact hmsgsS s hs
  | jnull =>
      simp only [strip_hidden_unicode_from_body, JVal.pyGet, error_bind] at h
      exact Except.noConfusion h
  | jbool b =>
      simp only [strip_hidden_unicode_from_body, JVal.pyGet, error_bind] at h
      exact Except.noConfusion h
  | jnum q =>
      simp only [strip_hidden_unicode_from_body, JVal.pyGet, error_bind] at h
      exact Except.noConfusion h
  | jstr s1 =>
      simp only [strip_hidden_unicode_from_body, JVal.pyGet, error_bind] at h
      exact Except.noConfusion h
  | jarr elems =>
      simp only [strip_hidden_unicode_from_body, JVal.pyGet, error_bind] at h
      exact Except.noConfusion h

theorem collectFindings_ok_of_anyHiddenAux :
    ∀ (msgs : List JVal) (acc : List (Nat × Nat)) (accB b : Bool),
      anyHiddenAux accB msgs = .ok b →
      ∃ fs, collectFindings acc msgs = .ok fs := by
  intro msgs
  induction msgs with
  | nil => intro acc accB b _; exact ⟨acc, rfl⟩
  | cons m ms ih =>
      intro acc accB b h
      cases hd : detectJ m with
      | error e =>
          simp only [anyHiddenAux, hd, error_bind] at h
          exact Except.noConfusion h
      | ok f =>
          simp only [anyHiddenAux, hd, ok_bind] at h
          simp only [collectFindings, hd, ok_bind]
          exact ih (acc ++ f) _ b h

/-- In strip mode the built-in hidden-Unicode check never blocks: it
returns `None` whenever the detection loop completes. -/
theorem check_strip_none (msgs : List JVal) (b : Bool)
    (h : anyHidden msgs = .ok b) :
    check_hidden_unicode true true msgs = .ok none := by
  obtain ⟨fs, hfs⟩ := collectFindings_ok_of_anyHiddenAux msgs [] false b h
  simp only [check_hidden_unicode, Bool.not_true, Bool.false_eq_true, if_false,
    hfs, ok_bind]
  cases hfe : fs.isEmpty <;> simp [hfe] <;> rfl

/-- C6 (amended): with the guard enabled and strip mode on, for every
POST body whose guard-extracted texts (system plus user-role texts, the
texts the source scans) contain hidden-Unicode code points, and on which
extraction and stripping complete without raising, the guard stage
forwards exactly the stripped body — every text position of which, for
all messages regardless of role, is hidden-Unicode-free — and the
request continues (is not blocked). -/
theorem guard_stage_strip_mode (llm_api_provider : String)
    (ext : List JVal → Option BlockInfo) (body stripped : JVal)
    (msgs : List JVal)
    (hmsgs : extract_messages llm_api_provider body = .ok msgs)
    (hfound : anyHidden msgs = .ok true)
    (hstrip : strip_hidden_unicode_from_body body = .ok stripped) :
    guard_stage true true "" llm_api_provider ext body
        = .ok (.proceed stripped) ∧
    ∀ s ∈ allTextPositions stripped, detect_hidden_unicode s = [] := by
  constructor
  · have hne : msgs.isEmpty = false := by
      cases msgs with
      | nil => simp [anyHidden, anyHiddenAux] at hfound
      | cons _ _ => rfl
    have hchk := check_strip_none msgs true hfound
    simp only [guard_stage, hmsgs, ok_bind, hne, Bool.false_eq_true, if_false,
      hchk, Bool.and_self, if_true, hfound, hstrip, check_guard]
    rfl
  · intro s hs
    obtain ⟨t, rfl⟩ := strip_body_positions body stripped hstrip s hs
    exact detect_strip_eq_nil t

/-- C6 counterexample: the body contains U+200B in a message text
position, the guard is enabled with strip mode on, yet the guard stage
forwards the body unchanged — the hidden code point survives in the
forwarded body, because `extract_messages` collects no assistant-role
texts, so the guard stage is skipped entirely. -/
theorem strip_mode_misses_assistant_cex :
    guard_stage true true "" "anthropic" (fun _ => none) hiddenAssistantBody
        = .ok (.proceed hiddenAssistantBody) ∧
    allTextPositions hiddenAssistantBody = ["hi​world"] ∧
    detect_hidden_unicode "hi​world" = [(2, 0x200B)] := by
  refine ⟨rfl, rfl, by decide⟩

theorem guard_stage_strip_mode_witness :
    guard_stage true true "" "anthropic" (fun _ => none) userHiddenBody
        = .ok (.proceed userStrippedBody) ∧
    ∀ s ∈ allTextPositions userStrippedBody, detect_hidden_unicode s = [] :=
  guard_stage_strip_mode "anthropic" (fun _ => none) userHiddenBody
    userStrippedBody [.jstr "hi​world"] rfl rfl rfl

theorem splitNl_ne_nil (d : List Nat) : splitNl d ≠ [] := by
  induction d with
  | nil => simp [splitNl]
  | cons b rest ih =>
      rw [splitNl]
      by_cases hb : b = 10
      · simp [hb]
      · rw [if_neg hb]
        cases hs : splitNl rest <;> simp

theorem splitNl_consHead (p : List Nat) (hp : ∀ b ∈ p, b ≠ 10) :
    ∀ d, splitNl (p ++ d) = consHead p (splitNl d) := by
  induction p with
  | nil =>
      intro d
      cases hs : splitNl d with
      | nil => exact absurd hs (splitNl_ne_nil d)
      | cons l ls => simp [consHead, hs]
  | cons b p' ih =>
      intro d
      have hb : b ≠ 10 := hp b (List.mem_cons_self b p')
      have hp' : ∀ x ∈ p', x ≠ 10 := fun x hx => hp x (List.mem_cons_of_mem b hx)
      rw [List.cons_append, splitNl, if_neg hb, ih hp' d]
      cases hs : splitNl d with
      | nil => exact absurd hs (splitNl_ne_nil d)
      | cons l ls => simp [consHead]

theorem splitNl_noNl (p : List Nat) (hp : ∀ b ∈ p, b ≠ 10) :
    splitNl p = [p] := by
  have h := splitNl_consHead p hp []
  rw [List.append_nil] at h
  rw [h]
  simp [splitNl, consHead]

theorem getLastD_default_irrel {α : Type} (l : List α) (h : l ≠ [])
    (d1 d2 : α) : l.getLastD d1 = l.getLastD d2 := by
  cases l with
  | nil => exact absurd rfl h
  | cons a as => rw [List.getLastD_cons, List.getLastD_cons]

theorem splitNl_getLastD_noNl (d : List Nat) :
    ∀ b ∈ (splitNl d).getLastD [], b ≠ 10 := by
  induction d with
  | nil => simp [splitNl]
  | cons c rest ih =>
      rw [splitNl]
      by_cases hc : c = 10
      · rw [if_pos hc, List.getLastD_cons]
        cases hs : splitNl rest with
        | nil => exact absurd hs (splitNl_ne_nil rest)
        | cons l ls =>
            rw [← hs, getLastD_default_irrel (splitNl rest)
              (splitNl_ne_nil rest) [] []]
            exact ih
      · rw [if_neg hc]
        cases hs : splitNl rest with
        | nil => exact absurd hs (splitNl_ne_nil rest)
        | cons l ls =>
            cases ls with
            | nil =>
                intro b hb
                simp only [List.getLastD_cons, List.getLastD_nil] at hb
                rcases List.mem_cons.mp hb with rfl | hmem
                · exact hc
                · have := ih
                  rw [hs] at this
                  simp only [List.getLastD_cons, List.getLastD_nil] at this
                  exact this b hmem
            | cons l2 ls2 =>
                rw [List.getLastD_cons]
                intro b hb
                have := ih
                rw [hs, List.getLastD_cons] at this
                rw [getLastD_default_irrel (l2 :: ls2) (by simp) (c :: l) l] at hb
                exact this b hb

theorem feed_peel (s : SSETokenExtractor) (c : Nat) (rest : List Nat)
    (hbuf : ∀ b ∈ s.line_buffer, b ≠ 10) :
    feed s (c :: rest) = (feedByte s c) >>= fun s' => feed s' rest := by
  by_cases hc : c = 10
  · subst hc
    have hsplit : splitNl (s.line_buffer ++ 10 :: rest)
        = s.line_buffer :: splitNl rest := by
      rw [splitNl_consHead _ hbuf, splitNl, if_pos rfl]
      cases hs : splitNl rest with
      | nil => exact absurd hs (splitNl_ne_nil rest)
      | cons l ls => simp [consHead]
    obtain ⟨r0, rs, hrs⟩ : ∃ r0 rs, splitNl rest = r0 :: rs := by
      cases hs : splitNl rest with
      | nil => exact absurd hs (splitNl_ne_nil rest)
      | cons l ls => exact ⟨l, ls, rfl⟩
    cases hpl : process_line s.acc s.line_buffer with
    | error e =>
        simp [feed, feedByte, hsplit, hrs, hpl, List.foldlM_cons]
    | ok a1 =>
        simp only [feed, feedByte, if_pos rfl, if_true, hsplit, hrs,
          List.dropLast_cons₂, List.foldlM_cons, hpl, ok_bind, pure,
          Except.pure, List.getLastD_cons, List.nil_append]
  · have heq : s.line_buffer ++ c :: rest = (s.line_buffer ++ [c]) ++ rest := by
      simp
    rw [feedByte, if_neg hc]
    simp only [ok_bind, feed, heq]

theorem feedByte_noNl (s s' : SSETokenExtractor) (c : Nat)
    (hbuf : ∀ b ∈ s.line_buffer, b ≠ 10) (h : feedByte s c = .ok s') :
    ∀ b ∈ s'.line_buffer, b ≠ 10 := by
  by_cases hc : c = 10
  · subst hc
    rw [feedByte, if_pos rfl] at h
    cases hpl : process_line s.acc s.line_buffer with
    | error e => rw [hpl] at h; simp only [error_bind] at h; exact Except.noConfusion h
    | ok a1 =>
        rw [hpl] at h
        simp only [ok_bind, pure, Except.pure, Except.ok.injEq] at h
        subst h
        intro b hb
        simp at hb
  · rw [feedByte, if_neg hc, Except.ok.injEq] at h
    subst h
    intro b hb
    rcases List.mem_append.mp hb with hmem | hmem
    · exact hbuf b hmem
    · rw [List.mem_singleton.mp hmem]
      exact hc

theorem feed_eq_foldlM_feedByte :
    ∀ (chunk : List Nat) (s : SSETokenExtractor),
      (∀ b ∈ s.line_buffer, b ≠ 10) →
      feed s chunk = chunk.foldlM feedByte s := by
  intro chunk
  induction chunk with
  | nil =>
      intro s hbuf
      simp only [feed, List.append_nil, splitNl_noNl s.line_buffer hbuf,
        List.dropLast_single, List.foldlM_nil, ok_bind, pure, Except.pure,
        List.getLastD_cons, List.getLastD_nil]
  | cons c rest ih =>
      intro s hbuf
      rw [feed_peel s c rest hbuf, List.foldlM_cons]
      cases hfb : feedByte s c with
      | error e => simp [hfb]
      | ok s' =>
          simp only [hfb, ok_bind]
          exact ih s' (feedByte_noNl s s' c hbuf hfb)

theorem feed_noNl (s s' : SSETokenExtractor) (chunk : List Nat)
    (h : feed s chunk = .ok s') : ∀ b ∈ s'.line_buffer, b ≠ 10 := by
  rw [feed] at h
  cases hf : (splitNl (s.line_buffer ++ chunk)).dropLast.foldlM process_line
      s.acc with
  | error e => rw [hf] at h; simp only [error_bind] at h; exact Except.noConfusion h
  | ok a1 =>
      rw [hf] at h
      simp only [ok_bind, pure, Except.pure, Except.ok.injEq] at h
      subst h
      exact splitNl_getLastD_noNl (s.line_buffer ++ chunk)

theorem foldlM_feed_flatten :
    ∀ (chunks : List (List Nat)) (s : SSETokenExtractor),
      (∀ b ∈ s.line_buffer, b ≠ 10) →
      chunks.foldlM feed s = (chunks.flatten).foldlM feedByte s := by
  intro chunks
  induction chunks with
  | nil => intro s _; simp
  | cons c cs ih =>
      intro s hbuf
      rw [List.foldlM_cons, List.flatten_cons, List.foldlM_append,
        ← feed_eq_foldlM_feedByte c s hbuf]
      cases hf : feed s c with
      | error e => simp [hf]
      | ok s' =>
          simp only [hf, ok_bind]
          exact ih s' (feed_noNl s s' c hf)

/-- C3: the SSE token extractor is chunk-invariant — for any two
partitions of the same byte stream into chunk sequences, feeding each
via `feed` and then calling `finalize` produces the very same outcome,
including the final `(input_tokens, output_tokens, model)` values (and,
on malformed payloads, the same raised exception). -/
theorem sse_extractor_chunk_invariant (p1 p2 : List (List Nat))
    (h : p1.flatten = p2.flatten) :
    extractorResult p1 = extractorResult p2 := by
  have key : ∀ p : List (List Nat),
      runExtractor p
        = (do
            let s ← (p.flatten).foldlM feedByte
              ({} : SSETokenExtractor)
            finalize s) := by
    intro p
    rw [runExtractor, foldlM_feed_flatten p {} (by intro b hb; simp at hb)]
  rw [extractorResult, extractorResult, key p1, key p2, h]

theorem sse_extractor_chunk_invariant_witness :
    streamPartA.flatten = streamPartB.flatten ∧
    extractorResult streamPartA = extractorResult streamPartB ∧
    extractorResult streamPartA
      = .ok (10, 20, some (.jstr "claude-sonnet-4-5-20250929")) :=
  ⟨rfl, sse_extractor_chunk_invariant streamPartA streamPartB rfl, by rfl⟩

theorem lookup_mapAt (k0 : String) (F : JVal → JVal) :
    ∀ (fields : List (String × JVal)) (k : String),
      JVal.lookup
          (fields.map fun f => (f.1, if f.1 = k0 then F f.2 else f.2)) k
        = if k = k0 then (JVal.lookup fields k).map F
          else JVal.lookup fields k := by
  intro fields
  induction fields with
  | nil =>
      intro k
      by_cases h : k = k0 <;> simp [JVal.lookup, h]
  | cons f rest ih =>
      intro k
      obtain ⟨k1, v1⟩ := f
      by_cases h1 : k1 = k
      · subst h1
        by_cases h3 : k1 = k0 <;> simp [JVal.lookup, h3]
      · by_cases h3 : k = k0
        · subst h3
          simp [JVal.lookup, h1, ih k]
        · simp [JVal.lookup, h1, h3, ih k]

theorem lookup_filterKeys (p : String → Bool) :
    ∀ (fields : List (String × JVal)) (k : String), p k = true →
      JVal.lookup (fields.filter fun g => p g.1) k = JVal.lookup fields k := by
  intro fields
  induction fields with
  | nil => intro k _; rfl
  | cons f rest ih =>
      intro k hk
      obtain ⟨k1, v1⟩ := f
      rw [List.filter_cons]
      by_cases hp1 : p k1 = true
      · rw [if_pos (by simpa using hp1)]
        simp only [JVal.lookup]
        by_cases h1 : k1 = k
        · rw [if_pos h1, if_pos h1]
        · rw [if_neg h1, if_neg h1]
          exact ih k hk
      · rw [if_neg (by simpa using hp1)]
        have h1 : ¬ (k1 = k) := by
          intro hh
          subst hh
          exact hp1 hk
        simp only [JVal.lookup, if_neg h1]
        exact ih k hk

theorem lookup_filterKeys_none (p : String → Bool) :
    ∀ (fields : List (String × JVal)) (k : String), p k = false →
      JVal.lookup (fields.filter fun g => p g.1) k = none := by
  intro fields
  induction fields with
  | nil => intro k _; rfl
  | cons f rest ih =>
      intro k hk
      obtain ⟨k1, v1⟩ := f
      rw [List.filter_cons]
      by_cases hp1 : p k1 = true
      · rw [if_pos (by simpa using hp1)]
        have h1 : ¬ (k1 = k) := by
          intro hh
          subst hh
          rw [hk] at hp1
          exact Bool.noConfusion hp1
        simp only [JVal.lookup, if_neg h1]
        exact ih k hk
      · rw [if_neg (by simpa using hp1)]
        exact ih k hk

/-- The projection of `record_cost` that `stream_with_usage` logs: the
returned cost is exactly the cost-table value for the accumulated
input/output token counts. -/
theorem record_cost_fst (bm : BudgetManager) (now : ℚ) (model : String)
    (i o : ℤ) :
    (bm.record_cost now model i o).1 = get_cost model (i : ℚ) (o : ℚ) := rfl

/-- Stripping the cache counters from `message.usage` leaves the
model-extraction stage unchanged. -/
theorem extractModelStage_stripped (a : ExtAcc)
    (fields : List (String × JVal)) :
    extractModelStage a (stripCacheKeys (.jobj fields))
        ((JVal.lookup fields "message").map stripMsgUsage)
      = extractModelStage a (.jobj fields) (JVal.lookup fields "message") := by
  have hmodel : (stripCacheKeys (.jobj fields)).objGet "model"
      = (JVal.jobj fields).objGet "model" := by
    simp only [stripCacheKeys, JVal.objGet, lookup_mapAt]
    rw [if_neg (by decide)]
  unfold extractModelStage
  by_cases hm : modelFalsy a.model
  · rw [if_pos hm, if_pos hm]
    cases hmm : JVal.lookup fields "message" with
    | none =>
        simp only [Option.map_none']
        rw [hmodel]
    | some mv =>
        cases mv with
        | jobj mf =>
            simp only [Option.map_some', stripMsgUsage]
            rw [lookup_mapAt, if_neg (by decide)]
            cases JVal.lookup mf "model" with
            | some mv2 => rfl
            | none => rw [hmodel]
        | jnull => simp only [Option.map_some', stripMsgUsage]; rw [hmodel]
        | jbool b => simp only [Option.map_some', stripMsgUsage]; rw [hmodel]
        | jnum n => simp only [Option.map_some', stripMsgUsage]; rw [hmodel]
        | jstr s => simp only [Option.map_some', stripMsgUsage]; rw [hmodel]
        | jarr l => simp only [Option.map_some', stripMsgUsage]; rw [hmodel]
  · rw [if_neg hm, if_neg hm]

/-- Stripping the cache counters from `message.usage` leaves the
`input_tokens` accumulation of the `message_start` stage unchanged (the
cache counters then read their defaults). -/
theorem msgUsageStage_stripped (a : ExtAcc) (msgOpt : Option JVal)
    (a2 : ExtAcc) (h : msgUsageStage a msgOpt = .ok a2) :
    ∃ a2', msgUsageStage a (msgOpt.map stripMsgUsage) = .ok a2' ∧
      a2'.input_tokens = a2.input_tokens ∧
      a2'.output_tokens = a2.output_tokens ∧
      a2'.model = a2.model := by
  cases msgOpt with
  | none => exact ⟨a2, h, rfl, rfl, rfl⟩
  | some v =>
      cases v with
      | jobj mf =>
          simp only [Option.map_some', stripMsgUsage, msgUsageStage] at h ⊢
          rw [lookup_mapAt, if_pos rfl]
          cases hu : JVal.lookup mf "usage" with
          | none =>
              rw [hu] at h
              exact ⟨a2, h, rfl, rfl, rfl⟩
          | some uv =>
              cases uv with
              | jobj uf =>
                  simp only [hu] at h
                  simp only [Option.map_some', stripUsageCache]
                  cases hit : getUsageNum uf "input_tokens" a.input_tokens with
                  | error e => rw [hit] at h; simp only [error_bind] at h
                               exact Except.noConfusion h
                  | ok it =>
                      rw [hit] at h
                      simp only [ok_bind] at h
                      cases hcr : getUsageNum uf "cache_read_input_tokens"
                          a.cache_read_input_tokens with
                      | error e => rw [hcr] at h; simp only [error_bind] at h
                                   exact Except.noConfusion h
                      | ok cr =>
                          rw [hcr] at h
                          simp only [ok_bind] at h
                          cases hcc : getUsageNum uf
                              "cache_creation_input_tokens"
                              a.cache_creation_input_tokens with
                          | error e =>
                              rw [hcc] at h
                              simp only [error_bind] at h
                              exact Except.noConfusion h
                          | ok cc =>
                              rw [hcc] at h
                              simp only [ok_bind] at h
                              have hfit : getUsageNum
                                  (uf.filter fun g => nonCacheKey g.1)
                                  "input_tokens" a.input_tokens = .ok it := by
                                rw [getUsageNum,
                                  lookup_filterKeys nonCacheKey uf
                                    "input_tokens" (by decide), ← getUsageNum]
                                exact hit
                              have hfcr : getUsageNum
                                  (uf.filter fun g => nonCacheKey g.1)
                                  "cache_read_input_tokens"
                                  a.cache_read_input_tokens
                                    = .ok a.cache_read_input_tokens := by
                                rw [getUsageNum,
                                  lookup_filterKeys_none nonCacheKey uf
                                    "cache_read_input_tokens" (by decide)]
                              have hfcc : getUsageNum
                                  (uf.filter fun g => nonCacheKey g.1)
                                  "cache_creation_input_tokens"
                                  a.cache_creation_input_tokens
                                    = .ok a.cache_creation_input_tokens := by
                                rw [getUsageNum,
                                  lookup_filterKeys_none nonCacheKey uf
                                    "cache_creation_input_tokens" (by decide)]
                              rw [hfit, hfcr, hfcc]
                              simp only [ok_bind]
                              refine ⟨_, rfl, ?_, ?_, ?_⟩ <;>
                                (injection h with h2; rw [← h2])
              | jnull => simp only [hu] at h; exact ⟨a2, h, rfl, rfl, rfl⟩
              | jbool b => simp only [hu] at h; exact ⟨a2, h, rfl, rfl, rfl⟩
              | jnum n => simp only [hu] at h; exact ⟨a2, h, rfl, rfl, rfl⟩
              | jstr s => simp only [hu] at h; exact ⟨a2, h, rfl, rfl, rfl⟩
              | jarr l => simp only [hu] at h; exact ⟨a2, h, rfl, rfl, rfl⟩
      | jnull => exact ⟨a2, h, rfl, rfl, rfl⟩
      | jbool b => exact ⟨a2, h, rfl, rfl, rfl⟩
      | jnum n => exact ⟨a2, h, rfl, rfl, rfl⟩
      | jstr s => exact ⟨a2, h, rfl, rfl, rfl⟩
      | jarr l => exact ⟨a2, h, rfl, rfl, rfl⟩

/-- The `message_delta` stage reads only the top-level `usage` object
and the presence of `message`, both untouched by the cache strip; on
accumulators agreeing in input/output/model it yields agreeing
results. -/
theorem deltaStage_stripped (b b' : ExtAcc) (fields : List (String × JVal))
    (a3 : ExtAcc)
    (hin : b'.input_tokens = b.input_tokens)
    (hout : b'.output_tokens = b.output_tokens)
    (hmod : b'.model = b.model)
    (h : deltaStage b (.jobj fields) = .ok a3) :
    ∃ a3', deltaStage b' (stripCacheKeys (.jobj fields)) = .ok a3' ∧
      a3'.input_tokens = a3.input_tokens ∧
      a3'.output_tokens = a3.output_tokens ∧
      a3'.model = a3.model := by
  have husage : (stripCacheKeys (.jobj fields)).objGet "usage"
      = (JVal.jobj fields).objGet "usage" := by
    simp only [stripCacheKeys, JVal.objGet, lookup_mapAt]
    rw [if_neg (by decide)]
  have hkey : (stripCacheKeys (.jobj fields)).hasKey "message"
      = (JVal.jobj fields).hasKey "message" := by
    simp only [stripCacheKeys, JVal.hasKey, JVal.objGet, lookup_mapAt,
      if_true]
    cases JVal.lookup fields "message" <;> rfl
  rw [deltaStage] at h
  rw [deltaStage, husage, hkey]
  cases hu : (JVal.jobj fields).objGet "usage" with
  | none =>
      rw [hu] at h
      injection h with h2
      exact ⟨b', rfl, by rw [hin, ← h2], by rw [hout, ← h2], by rw [hmod, ← h2]⟩
  | some uv =>
      rw [hu] at h
      cases uv with
      | jobj uf =>
          cases hk : (JVal.jobj fields).hasKey "message" with
          | true =>
              rw [hk] at h
              simp only [Bool.not_true, if_neg (Bool.false_ne_true)] at h
              injection h with h2
              exact ⟨b', rfl, by rw [hin, ← h2],
                by rw [hout, ← h2], by rw [hmod, ← h2]⟩
          | false =>
              rw [hk] at h
              simp only [Bool.not_false, if_pos rfl] at h
              simp only [Bool.not_false, if_pos rfl]
              cases hot : getUsageNum uf "output_tokens" b.output_tokens with
              | error e =>
                  rw [hot] at h
                  simp only [error_bind] at h
                  exact Except.noConfusion h
              | ok ot =>
                  rw [hot] at h
                  simp only [ok_bind] at h
                  rw [hout, hot]
                  simp only [ok_bind]
                  refine ⟨_, rfl, ?_, ?_, ?_⟩ <;>
                    (injection h with h2; subst h2; simp [hin, hmod])
      | jnull =>
          injection h with h2
          exact ⟨b', rfl, by rw [hin, ← h2], by rw [hout, ← h2],
            by rw [hmod, ← h2]⟩
      | jbool c =>
          injection h with h2
          exact ⟨b', rfl, by rw [hin, ← h2], by rw [hout, ← h2],
            by rw [hmod, ← h2]⟩
      | jnum n =>
          injection h with h2
          exact ⟨b', rfl, by rw [hin, ← h2], by rw [hout, ← h2],
            by rw [hmod, ← h2]⟩
      | jstr s =>
          injection h with h2
          exact ⟨b', rfl, by rw [hin, ← h2], by rw [hout, ← h2],
            by rw [hmod, ← h2]⟩
      | jarr l =>
          injection h with h2
          exact ⟨b', rfl, by rw [hin, ← h2], by rw [hout, ← h2],
            by rw [hmod, ← h2]⟩

/-- The OpenAI stage reads only the top-level `usage` object, untouched
by the cache strip. -/
theorem openaiStage_stripped (b b' : ExtAcc) (fields : List (String × JVal))
    (a4 : ExtAcc)
    (hin : b'.input_tokens = b.input_tokens)
    (hout : b'.output_tokens = b.output_tokens)
    (hmod : b'.model = b.model)
    (h : openaiStage b (.jobj fields) = .ok a4) :
    ∃ a4', openaiStage b' (stripCacheKeys (.jobj fields)) = .ok a4' ∧
      a4'.input_tokens = a4.input_tokens ∧
      a4'.output_tokens = a4.output_tokens ∧
      a4'.model = a4.model := by
  have husage : (stripCacheKeys (.jobj fields)).objGet "usage"
      = (JVal.jobj fields).objGet "usage" := by
    simp only [stripCacheKeys, JVal.objGet, lookup_mapAt]
    rw [if_neg (by decide)]
  rw [openaiStage] at h
  rw [openaiStage, husage]
  cases hu : (JVal.jobj fields).objGet "usage" with
  | none =>
      rw [hu] at h
      injection h with h2
      exact ⟨b', rfl, by rw [hin, ← h2], by rw [hout, ← h2], by rw [hmod, ← h2]⟩
  | some uv =>
      cases uv with
      | jobj uf =>
          simp only [hu] at h
          cases hp : (JVal.lookup uf "prompt_tokens").isSome with
          | false =>
              simp only [hp, Bool.false_eq_true, if_false] at h
              injection h with h2
              refine ⟨b', ?_, by rw [hin, ← h2],
                by rw [hout, ← h2], by rw [hmod, ← h2]⟩
              simp only [hp, Bool.false_eq_true, if_false]
              rfl
          | true =>
              simp only [hp, if_true] at h
              cases hit : getUsageNum uf "prompt_tokens" b.input_tokens with
              | error e =>
                  rw [hit] at h
                  simp only [error_bind] at h
                  exact Except.noConfusion h
              | ok it =>
                  rw [hit] at h
                  simp only [ok_bind] at h
                  cases hot : getUsageNum uf "completion_tokens"
                      b.output_tokens with
                  | error e =>
                      rw [hot] at h
                      simp only [error_bind] at h
                      exact Except.noConfusion h
                  | ok ot =>
                      rw [hot] at h
                      simp only [ok_bind] at h
                      simp only [hp, if_true, hin, hit, ok_bind, hout, hot]
                      refine ⟨_, rfl, ?_, ?_, ?_⟩ <;>
                        (injection h with h2; subst h2; simp [hmod])
      | jnull =>
          rw [hu] at h
          injection h with h2
          exact ⟨b', rfl, by rw [hin, ← h2], by rw [hout, ← h2],
            by rw [hmod, ← h2]⟩
      | jbool c =>
          rw [hu] at h
          injection h with h2
          exact ⟨b', rfl, by rw [hin, ← h2], by rw [hout, ← h2],
            by rw [hmod, ← h2]⟩
      | jnum n =>
          rw [hu] at h
          injection h with h2
          exact ⟨b', rfl, by rw [hin, ← h2], by rw [hout, ← h2],
            by rw [hmod, ← h2]⟩
      | jstr s =>
          rw [hu] at h
          injection h with h2
          exact ⟨b', rfl, by rw [hin, ← h2], by rw [hout, ← h2],
            by rw [hmod, ← h2]⟩
      | jarr l =>
          rw [hu] at h
          injection h with h2
          exact ⟨b', rfl, by rw [hin, ← h2], by rw [hout, ← h2],
            by rw [hmod, ← h2]⟩

/-- Composing the stages: when `_extract` succeeds on a payload, it
succeeds on the cache-stripped payload with identical
`input_tokens`, `output_tokens` and `model`. -/
theorem extractObj_stripCacheKeys (a : ExtAcc) (obj : JVal) (a' : ExtAcc)
    (h : extractObj a obj = .ok a') :
    ∃ a'', extractObj a (stripCacheKeys obj) = .ok a'' ∧
      a''.input_tokens = a'.input_tokens ∧
      a''.output_tokens = a'.output_tokens ∧
      a''.model = a'.model := by
  cases obj with
  | jobj fields =>
      have hpg : (JVal.jobj fields).pyGet "message"
          = .ok (JVal.lookup fields "message") := rfl
      have hpg' : (stripCacheKeys (.jobj fields)).pyGet "message"
          = .ok ((JVal.lookup fields "message").map stripMsgUsage) := by
        simp only [stripCacheKeys, JVal.pyGet, lookup_mapAt, if_true]
      simp only [extractObj, hpg, ok_bind] at h
      cases h2 : msgUsageStage (extractModelStage a (.jobj fields)
          (JVal.lookup fields "message")) (JVal.lookup fields "message") with
      | error e =>
          rw [h2] at h
          simp only [error_bind] at h
          exact Except.noConfusion h
      | ok a2 =>
          rw [h2] at h
          simp only [ok_bind] at h
          cases h3 : deltaStage a2 (.jobj fields) with
          | error e =>
              rw [h3] at h
              simp only [error_bind] at h
              exact Except.noConfusion h
          | ok a3 =>
              rw [h3] at h
              simp only [ok_bind] at h
              obtain ⟨a2', h2', hs2a, hs2b, hs2c⟩ :=
                msgUsageStage_stripped (extractModelStage a (.jobj fields)
                  (JVal.lookup fields "message"))
                  (JVal.lookup fields "message") a2 h2
              obtain ⟨a3', h3', hs3a, hs3b, hs3c⟩ :=
                deltaStage_stripped a2 a2' fields a3 hs2a hs2b hs2c h3
              obtain ⟨a4', h4', hs4a, hs4b, hs4c⟩ :=
                openaiStage_stripped a3 a3' fields a' hs3a hs3b hs3c h
              refine ⟨a4', ?_, hs4a, hs4b, hs4c⟩
              simp only [extractObj, hpg', ok_bind,
                extractModelStage_stripped, h2', h3']
              exact h4'
  | jnull => exact Except.noConfusion h
  | jbool b => exact Except.noConfusion h
  | jnum n => exact Except.noConfusion h
  | jstr s => exact Except.noConfusion h
  | jarr l => exact Except.noConfusion h

/-- C10: at the end of a trackable SSE stream, the cost recorded by
`stream_with_usage` is exactly
`get_cost(model, extractor.input_tokens, extractor.output_tokens)` for
the model the extractor resolved (falling back to the request model),
and the actual `record_cost` call is made with precisely those two
counters — the cache counters never enter it.  Moreover the cache
counters accumulated from `message_start` usage are kept in separate
fields: deleting `cache_read_input_tokens` and
`cache_creation_input_tokens` from a payload's `message.usage` leaves
the extractor's `input_tokens`, `output_tokens` and `model` results
unchanged. -/
theorem stream_end_cost_spec :
    (∀ (chunks : List (List Nat)) (request_model : JVal)
        (bm : BudgetManager) (now : ℚ) (s : SSETokenExtractor) (m : JVal)
        (c : ℚ) (bm' : BudgetManager),
      runExtractor chunks = .ok s →
      stream_end_record chunks request_model bm now
          = .ok (some (m, c, bm')) →
      m = pyModelOr s.acc.model request_model ∧
      ∃ name, m = .jstr name ∧
        c = get_cost name (s.acc.input_tokens : ℚ)
          (s.acc.output_tokens : ℚ) ∧
        (c, bm') = bm.record_cost now name s.acc.input_tokens
          s.acc.output_tokens) ∧
    (∀ (a : ExtAcc) (obj : JVal) (a' : ExtAcc),
      extractObj a obj = .ok a' →
      ∃ a'', extractObj a (stripCacheKeys obj) = .ok a'' ∧
        a''.input_tokens = a'.input_tokens ∧
        a''.output_tokens = a'.output_tokens ∧
        a''.model = a'.model) := by
  constructor
  · intro chunks request_model bm now s m c bm' hrun hrec
    simp only [stream_end_record, hrun, ok_bind] at hrec
    cases hhu : has_usage s.acc with
    | false =>
        rw [if_neg (by rw [hhu]; exact Bool.false_ne_true)] at hrec
        exact Option.noConfusion (Except.ok.inj hrec)
    | true =>
        rw [if_pos hhu] at hrec
        cases hpm : pyModelOr s.acc.model request_model with
        | jstr name =>
            simp only [hpm, pure, Except.pure, Except.ok.injEq,
              Option.some.injEq, Prod.mk.injEq] at hrec
            obtain ⟨hm, hc, hbm⟩ := hrec
            refine ⟨hm.symm, name, hm.symm, ?_, ?_⟩
            · rw [← hc, record_cost_fst]
            · rw [← hc, ← hbm]
        | jnull => rw [hpm] at hrec; exact Except.noConfusion hrec
        | jbool b => rw [hpm] at hrec; exact Except.noConfusion hrec
        | jnum n => rw [hpm] at hrec; exact Except.noConfusion hrec
        | jarr l => rw [hpm] at hrec; exact Except.noConfusion hrec
        | jobj f => rw [hpm] at hrec; exact Except.noConfusion hrec
  · exact extractObj_stripCacheKeys

set_option maxRecDepth 10000 in
theorem stream_end_cost_spec_witness :
    (JVal.jstr "claude-3-5-haiku-20241022"
        = pyModelOr c10State.acc.model (.jstr "request-fallback") ∧
      ∃ name, JVal.jstr "claude-3-5-haiku-20241022" = .jstr name ∧
        c10Res.1 = get_cost name (c10State.acc.input_tokens : ℚ)
          (c10State.acc.output_tokens : ℚ) ∧
        (c10Res.1, c10Res.2) = c10Bm.record_cost 0 name
          c10State.acc.input_tokens c10State.acc.output_tokens) ∧
    (∃ a'', extractObj {} (stripCacheKeys c10Obj) = .ok a'' ∧
      a''.input_tokens = c10Acc.input_tokens ∧
      a''.output_tokens = c10Acc.output_tokens ∧
      a''.model = c10Acc.model) :=
  ⟨stream_end_cost_spec.1 c10Stream (.jstr "request-fallback") c10Bm 0
      c10State (.jstr "claude-3-5-haiku-20241022") c10Res.1 c10Res.2
      rfl rfl,
   stream_end_cost_spec.2 {} c10Obj c10Acc rfl⟩

end LLMProxy


